import Mathlib

/-!
# heartbeats: the combined core-count / frequency controller (`combined.c`)

A shallow embedding of the actuator model, the frequency scaler, the five
decision functions and the body of the control loop of `combined.c`, followed
by theorems about them.

Conventions of the embedding.

* `uint64_t` fields are `Nat`; `++`, `--`, `+ 1`, `- 1` on them are taken
  modulo `2 ^ 64` (`u64_add`, `u64_sub`).
* `int` variables are `Int`.  Converting a `uint64_t` to `int` is exact for
  values below `2 ^ 31`; for larger values the C standard leaves the result to
  the implementation and the model stops (`none`).
* `int64_t` beat counters are `Int`; sums of beats are taken in `Int`.
* `double` rates are rationals: the decision functions only compare them
  (a NaN rate, for which every comparison is false, is not modelled).
* A pointer into the `acts` array is the index of the element.  A C array with
  its element count is a `List`.
* A function returns `none` where the C program dereferences a null pointer,
  indexes outside an array, or calls `exit`.
* `step_heuristics` uses a loop counter `i` it does not declare; it is read as
  a local `int i`.
* Output to `stdout` and `stderr` is not modelled, except for the line of
  `print_status`.
* The function-local `static` variables of the decision functions are the
  record `statics`, threaded through every call.
* Calls to the operating system (`system`, `cpufreq_*`) take their replies
  from a `hardware` record and are logged as a list of `hw_call`.
-/

namespace Heartbeats

/-! ## Data model -/

def ACTUATOR_CORE_COUNT : Int := 1
def ACTUATOR_GLOBAL_FREQ : Int := 2
def ACTUATOR_SINGLE_FREQ : Int := 3

/-- The `freq_scaler_data_t` block: `freq_array` with its `freq_count`
elements, and `cur_index`. -/
structure freq_scaler_data_t where
  freq_array : List Nat
  cur_index : Int
deriving DecidableEq, Repr

/-- The field `freq_count`: the number of elements of `freq_array`. -/
def freq_scaler_data_t.freq_count (d : freq_scaler_data_t) : Int :=
  (d.freq_array.length : Int)

/-- The three functions an `action_f` pointer can hold. -/
inductive action_fn where
  | core_act
  | single_freq_act
  | global_freq_act
deriving DecidableEq, Repr

/-- The `struct actuator`: `value` is the current value, `set_value` the
requested one.  `init_f` is used once at start-up and is not stored. -/
structure actuator_t where
  id : Int
  pid : Int
  core : Int
  action_f : action_fn
  value : Nat
  set_value : Nat
  min : Nat
  max : Nat
  data : Option freq_scaler_data_t
deriving DecidableEq, Repr

/-- The fields of `heartbeat_record_t` the controller reads. -/
structure heartbeat_record_t where
  beat : Int
  window_rate : ℚ

/-- Modelled from the spec: `heart_rate_monitor.h` is not part of the sources;
the monitor handle `hrm` supplies the two thresholds (`hrm_get_min_rate`,
`hrm_get_max_rate`) and the window size (`hrm_get_window_size`). -/
structure heart_rate_monitor_t where
  min_rate : ℚ
  max_rate : ℚ
  window_size : Int

/-- The number `2 ^ 64`, one more than `UINT64_MAX`. -/
def U64_MOD : Nat := 18446744073709551616

/-- The number `2 ^ 31`, one more than `INT_MAX`. -/
def INT_LIMIT : Nat := 2147483648

/-- Wrapping `uint64_t` addition. -/
def u64_add (a b : Nat) : Nat := (a + b) % U64_MOD

/-- Wrapping `uint64_t` subtraction `a - b` of two values below `2 ^ 64`: the
difference when `b <= a`, and `a + 2 ^ 64 - b` when the subtraction wraps. -/
def u64_sub (a b : Nat) : Nat :=
  if b ≤ a then (a - b) % U64_MOD else (a + U64_MOD - b) % U64_MOD

/-- Conversion of a `uint64_t` to `int`. -/
def to_int (n : Nat) : Option Int :=
  if n < INT_LIMIT then some (n : Int) else none

/-- Conversion of an `int` to `uint64_t` (the usual arithmetic conversion in a
mixed comparison). -/
def to_u64 (i : Int) : Nat := (i % (U64_MOD : Int)).toNat

/-- Read `a[i]` of a C array indexed by an `int`. -/
def array_get {α : Type} (a : List α) (i : Int) : Option α :=
  if 0 ≤ i then a[i.toNat]? else none

/-! ## Replies of the operating system -/

/-- The replies the operating system gives during one action: the exit status
of the `taskset` command that pins process `pid` to the first `n` cores, the
result of `cpufreq_set_frequency cpu freq`, the value of
`cpufreq_get_freq_kernel cpu`, and the cached `get_core_count ()`. -/
structure hardware where
  system : Nat → Int → Int
  cpufreq_set_frequency : Int → Nat → Int
  cpufreq_get_freq_kernel : Int → Nat
  get_core_count : Nat

/-- A call issued to the operating system: `taskset set_value pid` is the
command `taskset -pc 0-(set_value - 1) pid` run through `system`,
`set_frequency cpu freq` is `cpufreq_set_frequency (cpu, freq)` and
`get_freq_kernel cpu` is `cpufreq_get_freq_kernel (cpu)`. -/
inductive hw_call where
  | taskset (set_value : Nat) (pid : Int)
  | set_frequency (cpu : Int) (freq : Nat)
  | get_freq_kernel (cpu : Int)
deriving DecidableEq, Repr

/-! ## Frequency scaler -/

/-- The loop of `get_freq_index`, from position `i` on. -/
def get_freq_index_from (freq : Nat) : List Nat → Nat → Int
  | [], _ => -1
  | x :: rest, i => if x = freq then (i : Int) else get_freq_index_from freq rest (i + 1)

/-- `get_freq_index`: the first index holding `freq`, or `-1`. -/
def get_freq_index (data : freq_scaler_data_t) (freq : Nat) : Int :=
  get_freq_index_from freq data.freq_array 0

/-- Replies of `libcpufreq` during `single_freq_init` on one core:
`cpufreq_get_hardware_limits` (`none` for a non-zero return), the governor of
`cpufreq_get_policy` before and after `cpufreq_modify_policy_governor`
(`none` for a null policy), the list behind
`cpufreq_get_available_frequencies`, and `cpufreq_get_freq_kernel`. -/
structure cpufreq_info where
  hardware_limits : Option (Nat × Nat)
  governor : Option String
  governor_after_modify : Option String
  available_frequencies : List Nat
  freq_kernel : Nat

/-- Outcome of an `init_f`: return `0` with the actuator filled in, return
`-1`, or a null dereference. -/
inductive init_result where
  | ok (act : actuator_t)
  | fail
  | crash
deriving DecidableEq, Repr

/-- `create_freq_array` followed by the assignment to `freq_count`: the array
is the list, the count its length (`malloc` is taken to succeed). -/
def create_freq_array (freq_list : List Nat) : List Nat × Int :=
  (freq_list, (freq_list.length : Int))

/-- `single_freq_init` (`malloc` is taken to succeed). -/
def single_freq_init (hw : Int → cpufreq_info) (act : actuator_t) : init_result :=
  match (hw act.core).hardware_limits with
  | none => init_result.fail
  | some (freq_min, freq_max) =>
    let act := { act with min := freq_min, max := freq_max }
    match (hw act.core).governor with
    | none => init_result.fail
    | some governor =>
      let governed : Option Bool :=
        if governor ≠ "userspace" then
          match (hw act.core).governor_after_modify with
          | none => none
          | some g => some (decide (g = "userspace"))
        else some true
      match governed with
      | none => init_result.crash
      | some false => init_result.fail
      | some true =>
        let (freq_array, freq_count) := create_freq_array (hw act.core).available_frequencies
        if freq_count < 1 then init_result.fail
        else
          let v := (hw act.core).freq_kernel
          let act := { act with value := v, set_value := v }
          let data : freq_scaler_data_t := { freq_array := freq_array, cur_index := 0 }
          let data := { data with cur_index := get_freq_index data act.value }
          init_result.ok { act with data := some data }

/-- `global_freq_init`: initialise from core `0`, then reset `core` to `-1`. -/
def global_freq_init (hw : Int → cpufreq_info) (act : actuator_t) : init_result :=
  match single_freq_init hw { act with core := 0 } with
  | init_result.ok a => init_result.ok { a with core := -1 }
  | r => r

/-! ## Actions -/

/-- `core_act`: run `taskset`; on exit status `0` the current value becomes
the requested one. -/
def core_act (hw : hardware) (act : actuator_t) : actuator_t × Int × List hw_call :=
  let err := hw.system act.set_value act.pid
  (if err = 0 then { act with value := act.set_value } else act, err,
    [hw_call.taskset act.set_value act.pid])

/-- `single_freq_act`: request the frequency, then read the current value back
from the kernel. -/
def single_freq_act (hw : hardware) (act : actuator_t) : actuator_t × Int × List hw_call :=
  let err := hw.cpufreq_set_frequency act.core act.set_value
  ({ act with value := hw.cpufreq_get_freq_kernel act.core }, err,
    [hw_call.set_frequency act.core act.set_value, hw_call.get_freq_kernel act.core])

/-- The loop of `global_freq_act`: `err = err || cpufreq_set_frequency (cpu,
set_value)` for `cpu` from `cpu` up to `cpu + n - 1`.  The right operand of
`||` is evaluated only when `err` is `0`. -/
def global_freq_loop (hw : hardware) (set_value : Nat) : Nat → Nat → Int → Int × List hw_call
  | 0, _, err => (err, [])
  | n + 1, cpu, err =>
    if err ≠ 0 then
      global_freq_loop hw set_value n (cpu + 1) 1
    else
      let r := hw.cpufreq_set_frequency (cpu : Int) set_value
      let (e, calls) := global_freq_loop hw set_value n (cpu + 1) (if r ≠ 0 then 1 else 0)
      (e, hw_call.set_frequency (cpu : Int) set_value :: calls)

/-- `global_freq_act`. -/
def global_freq_act (hw : hardware) (act : actuator_t) : actuator_t × Int × List hw_call :=
  let (err, calls) := global_freq_loop hw act.set_value hw.get_core_count 0 0
  ({ act with value := hw.cpufreq_get_freq_kernel 0 }, err,
    calls ++ [hw_call.get_freq_kernel 0])

/-- The call `act->action_f (act)`. -/
def call_action (hw : hardware) (act : actuator_t) : actuator_t × Int × List hw_call :=
  match act.action_f with
  | action_fn.core_act => core_act hw act
  | action_fn.single_freq_act => single_freq_act hw act
  | action_fn.global_freq_act => global_freq_act hw act

/-! ## Decision functions -/

/-- The function-local `static` variables of the decision functions:
`core_act` of `core_heuristics`, `freq_act` of `freq_heuristics`, and
`core_act` and `freq_acts[16]` of `step_heuristics`.  A null pointer is
`none`. -/
structure statics where
  core_heuristics_core_act : Option Nat
  freq_heuristics_freq_act : Option Nat
  step_heuristics_core_act : Option Nat
  step_heuristics_freq_acts : List (Option Nat)
deriving DecidableEq, Repr

/-- The statics at program start: all pointers null. -/
def statics.initial : statics :=
  { core_heuristics_core_act := none
    freq_heuristics_freq_act := none
    step_heuristics_core_act := none
    step_heuristics_freq_acts := List.replicate 16 none }

/-- The type `decision_function_t`, with the monitor handle and the statics
made explicit. -/
abbrev decision_function_t :=
  heart_rate_monitor_t → statics → heartbeat_record_t → List actuator_t →
    Option (statics × List actuator_t)

/-- The search loop `for (i = 0; i < act_count && p == NULL; i++) if
(acts[i].id == id) p = &acts[i];` started at index `i` with `p` null: the
first position holding `id`. -/
def find_first_id (id : Int) : List actuator_t → Nat → Option Nat
  | [], _ => none
  | a :: rest, i => if a.id = id then some i else find_first_id id rest (i + 1)

/-- The search loop of `core_heuristics` and `freq_heuristics`: it runs only
while the static pointer is null. -/
def lookup_static (cached : Option Nat) (id : Int) (acts : List actuator_t) : Option Nat :=
  match cached with
  | some p => some p
  | none => find_first_id id acts 0

/-- `dummy_control`. -/
def dummy_control : decision_function_t :=
  fun _ st _ acts => some (st, acts)

/-- The branches of `core_heuristics` after the search loop. -/
def core_decide (hrm : heart_rate_monitor_t) (core_act : Option Nat)
    (current : heartbeat_record_t) (acts : List actuator_t) : Option (List actuator_t) :=
  if current.window_rate < hrm.min_rate then
    match core_act with
    | none => none
    | some p =>
      match acts[p]? with
      | none => none
      | some a =>
        if a.value < a.max then some (acts.set p { a with set_value := u64_add a.set_value 1 })
        else some acts
  else if current.window_rate > hrm.max_rate then
    match core_act with
    | none => none
    | some p =>
      match acts[p]? with
      | none => none
      | some a =>
        if a.value > a.min then some (acts.set p { a with set_value := u64_sub a.set_value 1 })
        else some acts
  else some acts

/-- `core_heuristics`. -/
def core_heuristics : decision_function_t :=
  fun hrm st current acts =>
    let core_act := lookup_static st.core_heuristics_core_act ACTUATOR_CORE_COUNT acts
    match core_decide hrm core_act current acts with
    | none => none
    | some acts1 => some ({ st with core_heuristics_core_act := core_act }, acts1)

/-- The branches of `freq_heuristics` after the search loop. -/
def freq_decide (hrm : heart_rate_monitor_t) (freq_act : Option Nat)
    (current : heartbeat_record_t) (acts : List actuator_t) : Option (List actuator_t) :=
  match freq_act with
  | none => none
  | some p =>
    match acts[p]? with
    | none => none
    | some a =>
      if current.window_rate < hrm.min_rate then
        match a.data with
        | none => none
        | some freq_data =>
          if freq_data.cur_index > 0 then
            let cur_index := freq_data.cur_index - 1
            match array_get freq_data.freq_array cur_index with
            | none => none
            | some f =>
              some (acts.set p { a with set_value := f, data := some { freq_data with cur_index := cur_index } })
          else some acts
      else if current.window_rate > hrm.max_rate then
        match a.data with
        | none => none
        | some freq_data =>
          if freq_data.cur_index < freq_data.freq_count - 1 then
            let cur_index := freq_data.cur_index + 1
            match array_get freq_data.freq_array cur_index with
            | none => none
            | some f =>
              some (acts.set p { a with set_value := f, data := some { freq_data with cur_index := cur_index } })
          else some acts
      else some acts

/-- `freq_heuristics`. -/
def freq_heuristics : decision_function_t :=
  fun hrm st current acts =>
    let freq_act := lookup_static st.freq_heuristics_freq_act ACTUATOR_GLOBAL_FREQ acts
    match freq_decide hrm freq_act current acts with
    | none => none
    | some acts1 => some ({ st with freq_heuristics_freq_act := freq_act }, acts1)

/-- `uncoordinated_heuristics`: `core_heuristics`, then `freq_heuristics`. -/
def uncoordinated_heuristics : decision_function_t :=
  fun hrm st current acts =>
    match core_heuristics hrm st current acts with
    | none => none
    | some (st1, acts1) => freq_heuristics hrm st1 current acts1

/-- The binding loop of `step_heuristics` from index `i` on: the last
`ACTUATOR_CORE_COUNT` element becomes `core_act`, an `ACTUATOR_SINGLE_FREQ`
element with `core <= 16` is stored in `freq_acts[core]`.  The array has 16
slots; a store outside them is not defined. -/
def step_bind_loop : List actuator_t → Nat → Option Nat → List (Option Nat) →
    Option (Option Nat × List (Option Nat))
  | [], _, core_act, freq_acts => some (core_act, freq_acts)
  | a :: rest, i, core_act, freq_acts =>
    if a.id = ACTUATOR_CORE_COUNT then step_bind_loop rest (i + 1) (some i) freq_acts
    else if a.id = ACTUATOR_SINGLE_FREQ ∧ a.core ≤ 16 then
      if 0 ≤ a.core ∧ a.core < 16 then
        step_bind_loop rest (i + 1) core_act (freq_acts.set a.core.toNat (some i))
      else none
    else step_bind_loop rest (i + 1) core_act freq_acts

/-- The block `if (!core_act) { ... }` of `step_heuristics`: bind the
actuators, then `exit (2)` if the maximum core count exceeds 16. -/
def step_bind (st : statics) (acts : List actuator_t) : Option statics :=
  match st.step_heuristics_core_act with
  | some _ => some st
  | none =>
    match step_bind_loop acts 0 none st.step_heuristics_freq_acts with
    | none => none
    | some (core_act, freq_acts) =>
      match core_act with
      | none => none
      | some ci =>
        match acts[ci]? with
        | none => none
        | some ca =>
          match to_int ca.max with
          | none => none
          | some core_count =>
            if core_count > 16 then none
            else some { st with step_heuristics_core_act := some ci
                                step_heuristics_freq_acts := freq_acts }

/-- Read `freq_acts[i]` and follow the pointer: `none` outside the 16 slots or
on a null entry. -/
def freq_acts_get (freq_acts : List (Option Nat)) (i : Int) : Option Nat :=
  if i < 16 then (array_get freq_acts i).join else none

/-- The branch `if (current->window_rate < hrm_get_min_rate (&hrm))` of
`step_heuristics`: `ci` and `ca` are the position and content of `*core_act`,
`fi` and `fa` those of `*freq_acts[last_core]`. -/
def step_under_rate (st : statics) (acts : List actuator_t) (ci : Nat) (ca : actuator_t)
    (last_core : Int) (fi : Nat) (fa : actuator_t) : Option (List actuator_t) :=
  match fa.data with
  | none => none
  | some freq_data =>
    if freq_data.cur_index > 0 then
      let cur_index := freq_data.cur_index - 1
      match array_get freq_data.freq_array cur_index with
      | none => none
      | some f =>
        some (acts.set fi { fa with set_value := f, data := some { freq_data with cur_index := cur_index } })
    else if to_u64 last_core < u64_sub ca.max 1 then
      let acts1 := acts.set ci { ca with set_value := u64_add ca.value 1 }
      let last_core := last_core + 1
      match freq_acts_get st.step_heuristics_freq_acts last_core with
      | none => none
      | some ni =>
        match acts1[ni]? with
        | none => none
        | some na =>
          match na.data with
          | none => none
          | some new_data =>
            let cur_index := new_data.freq_count - 1
            match array_get new_data.freq_array cur_index with
            | none => none
            | some f =>
              some (acts1.set ni { na with set_value := f, data := some { new_data with cur_index := cur_index } })
    else some acts

/-- The branch `else if (current->window_rate > hrm_get_max_rate (&hrm))` of
`step_heuristics`. -/
def step_over_rate (acts : List actuator_t) (ci : Nat) (ca : actuator_t)
    (last_core : Int) (fi : Nat) (fa : actuator_t) : Option (List actuator_t) :=
  match fa.data with
  | none => none
  | some freq_data =>
    if freq_data.cur_index < freq_data.freq_count - 1 then
      let cur_index := freq_data.cur_index + 1
      match array_get freq_data.freq_array cur_index with
      | none => none
      | some f =>
        some (acts.set fi { fa with set_value := f, data := some { freq_data with cur_index := cur_index } })
    else if to_u64 last_core > u64_sub ca.min 1 then
      some (acts.set ci { ca with set_value := u64_sub ca.value 1 })
    else some acts

/-- The part of `step_heuristics` after the binding block. -/
def step_decide (hrm : heart_rate_monitor_t) (st : statics)
    (current : heartbeat_record_t) (acts : List actuator_t) : Option (List actuator_t) :=
  match st.step_heuristics_core_act with
  | none => none
  | some ci =>
    match acts[ci]? with
    | none => none
    | some ca =>
      match to_int (u64_sub ca.value 1) with
      | none => none
      | some last_core =>
        match freq_acts_get st.step_heuristics_freq_acts last_core with
        | none => none
        | some fi =>
          match acts[fi]? with
          | none => none
          | some fa =>
            if current.window_rate < hrm.min_rate then
              step_under_rate st acts ci ca last_core fi fa
            else if current.window_rate > hrm.max_rate then
              step_over_rate acts ci ca last_core fi fa
            else some acts

/-- `step_heuristics`. -/
def step_heuristics : decision_function_t :=
  fun hrm st current acts =>
    match step_bind st acts with
    | none => none
    | some st1 =>
      match step_decide hrm st1 current acts with
      | none => none
      | some acts1 => some (st1, acts1)

/-! ## Control loop -/

/-- The loop `for (i = 0; i < actuator_count; i++)` of `main` from index `i`
on: every actuator whose requested value differs from its current value is
acted upon and marks the tick as acted.  `hw i` holds the replies of the
operating system while actuator `i` acts. -/
def actuate (hw : Nat → hardware) : List actuator_t → Nat → List actuator_t × Bool × List hw_call
  | [], _ => ([], false, [])
  | act :: rest, i =>
    let (rest1, acted, calls) := actuate hw rest (i + 1)
    if act.set_value ≠ act.value then
      let (act1, _, c) := call_action (hw i) act
      (act1 :: rest1, true, c ++ calls)
    else (act :: rest1, acted, calls)

/-- The variables of `main` that live across iterations of the loop. -/
structure controller where
  statics : statics
  controls : List actuator_t
  skip_until_beat : Int
  last_beat : Int

/-- One line of `print_status`. -/
structure status_line where
  beat : Int
  window_rate : ℚ
  skip_until_beat : Int
  action : Char
  values : List Nat

/-- `print_status`. -/
def print_status (current : heartbeat_record_t) (skip_until_beat : Int) (action : Char)
    (controls : List actuator_t) : status_line :=
  { beat := current.beat, window_rate := current.window_rate,
    skip_until_beat := skip_until_beat, action := action,
    values := controls.map (fun a => a.value) }

/-- What one iteration of the loop produces: the next state, the status line
and the calls issued to the operating system. -/
structure tick_result where
  next : controller
  status : status_line
  calls : List hw_call

/-- The exit condition of the polling loop `do { ... } while (err || current.beat
<= last_beat || current.window_rate == 0.0)` for a sample read without error:
the sample is consumed. -/
def consumed (s : controller) (current : heartbeat_record_t) : Prop :=
  ¬ (current.beat ≤ s.last_beat ∨ current.window_rate = 0)

/-- The body of `while (1)` in `main` for a consumed sample `current`. -/
def main_loop_body (hrm : heart_rate_monitor_t) (decision_f : decision_function_t)
    (hw : Nat → hardware) (s : controller) (current : heartbeat_record_t) : Option tick_result :=
  let last_beat := current.beat
  if current.beat < s.skip_until_beat then
    some { next := { s with last_beat := last_beat }
           status := print_status current s.skip_until_beat '.' s.controls
           calls := [] }
  else
    match decision_f hrm s.statics current s.controls with
    | none => none
    | some (st1, controls1) =>
      let (controls2, acted, calls) := actuate hw controls1 0
      let skip_until_beat := current.beat + (if acted then hrm.window_size else 1)
      some { next := { statics := st1, controls := controls2,
                       skip_until_beat := skip_until_beat, last_beat := last_beat }
             status := print_status current skip_until_beat (if acted then '*' else '=') controls2
             calls := calls }

/-! ## Concrete inputs -/

/-- Thresholds `min_rate = 10.0`, `max_rate = 20.0`, window of 20 beats. -/
def hrm_example : heart_rate_monitor_t := { min_rate := 10, max_rate := 20, window_size := 20 }

/-- A core-count actuator with `min = 1`, `max = 4`, current value `v` and
requested value `s`. -/
def core_example (v s : Nat) : actuator_t :=
  { id := ACTUATOR_CORE_COUNT, pid := 4242, core := -1, action_f := action_fn.core_act,
    value := v, set_value := s, min := 1, max := 4, data := none }

/-- An operating system that accepts every request and reports frequency `f`. -/
def hw_accept (f : Nat) : hardware :=
  { system := fun _ _ => 0, cpufreq_set_frequency := fun _ _ => 0,
    cpufreq_get_freq_kernel := fun _ => f, get_core_count := 2 }

/-- An operating system on which `taskset` fails with status 256. -/
def hw_taskset_fails : hardware :=
  { system := fun _ _ => 256, cpufreq_set_frequency := fun _ _ => 0,
    cpufreq_get_freq_kernel := fun _ => 0, get_core_count := 4 }

/-- Two cores; `cpufreq_set_frequency` is rejected on core 0 and accepted on
core 1. -/
def hw_core0_rejects : hardware :=
  { system := fun _ _ => 0, cpufreq_set_frequency := fun cpu _ => if cpu = 0 then -1 else 0,
    cpufreq_get_freq_kernel := fun _ => 2000, get_core_count := 2 }

/-- A global frequency actuator on the ladder `ladder` with cursor `cur`,
current value `v` and requested value `s`. -/
def global_example (ladder : List Nat) (cur : Int) (v s : Nat) : actuator_t :=
  { id := ACTUATOR_GLOBAL_FREQ, pid := -1, core := -1, action_f := action_fn.global_freq_act,
    value := v, set_value := s, min := 1000, max := 2000,
    data := some { freq_array := ladder, cur_index := cur } }

/-- The actuators `main` builds for a machine with one core whose only
frequency is 2000: the frequency actuator of core 0, the global frequency
actuator, and the core-count actuator with `min = max = 1`. -/
def controls_one_core : List actuator_t :=
  [{ id := ACTUATOR_SINGLE_FREQ, pid := -1, core := 0, action_f := action_fn.single_freq_act,
     value := 2000, set_value := 2000, min := 2000, max := 2000,
     data := some { freq_array := [2000], cur_index := 0 } },
   global_example [2000] 0 2000 2000,
   { id := ACTUATOR_CORE_COUNT, pid := 4242, core := -1, action_f := action_fn.core_act,
     value := 1, set_value := 1, min := 1, max := 1, data := none }]

/-- The controller at start-up over `controls`. -/
def controller_example (controls : List actuator_t) : controller :=
  { statics := statics.initial, controls := controls, skip_until_beat := 0, last_beat := 0 }

/-- Replies of `libcpufreq` for a core with the frequencies 2000 and 1000
whose current frequency is reported as 1500. -/
def cpufreq_example : cpufreq_info :=
  { hardware_limits := some (1000, 2000), governor := some "userspace",
    governor_after_modify := some "userspace", available_frequencies := [2000, 1000],
    freq_kernel := 1500 }

/-- The element `controls[0]` of `main` before its `init_f` runs. -/
def single_example_uninit : actuator_t :=
  { id := ACTUATOR_SINGLE_FREQ, pid := -1, core := 0, action_f := action_fn.single_freq_act,
    value := 0, set_value := 0, min := 0, max := 0, data := none }

/-! ## Predicates used in the statements -/

/-- The ladder is strictly descending: index 0 holds the highest frequency and
the last index the lowest. -/
def descending (l : List Nat) : Prop := l.Pairwise (fun x y => y < x)

instance (l : List Nat) : Decidable (descending l) := by
  unfold descending; infer_instance

/-- The ladder is strictly ascending: index 0 holds the lowest frequency. -/
def ascending (l : List Nat) : Prop := l.Pairwise (fun x y => x < y)

instance (l : List Nat) : Decidable (ascending l) := by
  unfold ascending; infer_instance

/-- The part of an actuator no decision function may touch: everything but
the requested value and the cursor of the ladder. -/
def actuator_t.fixed_part (a : actuator_t) : actuator_t :=
  { a with set_value := 0, data := a.data.map (fun d => { d with cur_index := 0 }) }

/-- The statics of `step_heuristics` once bound to the actuators `main` builds
for a machine with one core: the frequency actuator of core 0 at position 0,
the global frequency actuator at position 1, the core-count actuator at
position 2. -/
def statics_one_core : statics :=
  { statics.initial with
    step_heuristics_core_act := some 2
    step_heuristics_freq_acts := [some 0] ++ List.replicate 15 none }

/-- The two objects `step_heuristics` reads before it branches, found the way
it finds them: the core-count actuator `*core_act` and the ladder of the last
active core, `freq_acts[core_act->value - 1]->data`. -/
def step_view (st : statics) (acts : List actuator_t) :
    Option (actuator_t × freq_scaler_data_t) :=
  match st.step_heuristics_core_act with
  | none => none
  | some ci =>
    match acts[ci]? with
    | none => none
    | some ca =>
      match to_int (u64_sub ca.value 1) with
      | none => none
      | some last_core =>
        match freq_acts_get st.step_heuristics_freq_acts last_core with
        | none => none
        | some fi =>
          match acts[fi]? with
          | none => none
          | some fa =>
            match fa.data with
            | none => none
            | some freq_data => some (ca, freq_data)

/-- A single-core frequency actuator for core `core` on the ladder `ladder`
with cursor `cur`, current value `v` and requested value `s`. -/
def single_example (core : Int) (ladder : List Nat) (cur : Int) (v s : Nat) : actuator_t :=
  { id := ACTUATOR_SINGLE_FREQ, pid := -1, core := core, action_f := action_fn.single_freq_act,
    value := v, set_value := s, min := 1000, max := 2000,
    data := some { freq_array := ladder, cur_index := cur } }

/-- A core-count actuator with bounds `lo` and `hi` whose current and
requested values are both `v`. -/
def count_example (lo hi v : Nat) : actuator_t :=
  { id := ACTUATOR_CORE_COUNT, pid := 4242, core := -1, action_f := action_fn.core_act,
    value := v, set_value := v, min := lo, max := hi, data := none }

/-- The statics of `step_heuristics` once bound to the actuators `main` builds
for a machine with two cores: the frequency actuators of the cores at
positions 0 and 1, the global frequency actuator at position 2, the core-count
actuator at position 3. -/
def statics_two_cores : statics :=
  { statics.initial with
    step_heuristics_core_act := some 3
    step_heuristics_freq_acts := [some 0, some 1] ++ List.replicate 14 none }

/-! ## Runs of the control loop under `step_heuristics` -/

/-- The actuator after an acknowledged action: the current value has become
the requested one. -/
def sync (a : actuator_t) : actuator_t := { a with value := a.set_value }

/-- The operating system acknowledges every action on `acts`: while actuator
`i` acts, `taskset` exits with status 0 and the kernel reports the requested
frequency as the current one. -/
def acknowledges (hw : Nat → hardware) (acts : List actuator_t) : Prop :=
  ∀ i a, acts[i]? = some a →
    (hw i).system a.set_value a.pid = 0 ∧
    (hw i).cpufreq_get_freq_kernel a.core = a.set_value ∧
    (hw i).cpufreq_get_freq_kernel 0 = a.set_value

/-- An operating system that acknowledges every action on `acts`. -/
def hw_acknowledging (acts : List actuator_t) (i : Nat) : hardware :=
  { system := fun _ _ => 0, cpufreq_set_frequency := fun _ _ => 0,
    cpufreq_get_freq_kernel := fun _ => ((acts[i]?).map (fun a => a.set_value)).getD 0,
    get_core_count := 1 }

/-- The core-count actuator `*core_act` of `step_heuristics` under the
bindings `b`. -/
def core_count_act (b : statics) (acts : List actuator_t) : Option actuator_t :=
  b.step_heuristics_core_act.bind (fun ci => acts[ci]?)

/-- The position in `acts` of `freq_acts[c]` under the bindings `b`. -/
def ladder_index (b : statics) (c : Nat) : Option Nat :=
  freq_acts_get b.step_heuristics_freq_acts (c : Int)

/-- The ladder `freq_acts[c]->data` of core `c` under the bindings `b`. -/
def ladder (b : statics) (acts : List actuator_t) (c : Nat) : Option freq_scaler_data_t :=
  (ladder_index b c).bind (fun i => (acts[i]?).bind (fun a => a.data))

/-- The current core count `core_act->value` (0 when there is no core-count
actuator). -/
def core_value (b : statics) (acts : List actuator_t) : Nat :=
  match core_count_act b acts with
  | some ca => ca.value
  | none => 0

/-- The cursor of core `c` (`-1` when the core has no ladder). -/
def cursor (b : statics) (acts : List actuator_t) (c : Nat) : Int :=
  match ladder b acts c with
  | some d => d.cur_index
  | none => -1

/-- An initialised state for `step_heuristics` under the bindings `b`: there
is a core-count actuator with `1 <= value <= max <= 16` whose requested value
is its current value; every core below `max` has a frequency actuator of its
own, distinct from the core-count actuator, whose cursor lies inside its
ladder. -/
def stepwise_ready (b : statics) (acts : List actuator_t) : Prop :=
  ∃ ci ca, b.step_heuristics_core_act = some ci ∧ acts[ci]? = some ca ∧
    1 ≤ ca.value ∧ ca.value ≤ ca.max ∧ ca.max ≤ 16 ∧ ca.set_value = ca.value ∧
    (∀ c, c < ca.max → ∃ i d, ladder_index b c = some i ∧ i ≠ ci ∧
      ladder b acts c = some d ∧ 0 ≤ d.cur_index ∧ d.cur_index < d.freq_count) ∧
    (∀ c c2, c < ca.max → c2 < ca.max → ladder_index b c = ladder_index b c2 → c = c2)

/-- One evaluated iteration of the loop of `main` under `step_heuristics` on
an under-rate sample, every action acknowledged by the operating system. -/
def under_rate_tick (hrm : heart_rate_monitor_t) (s s2 : controller) : Prop :=
  ∃ current hw st1 acts1 r,
    ¬ current.beat < s.skip_until_beat ∧ current.window_rate < hrm.min_rate ∧
    step_heuristics hrm s.statics current s.controls = some (st1, acts1) ∧
    acknowledges hw acts1 ∧
    main_loop_body hrm step_heuristics hw s current = some r ∧ r.next = s2

/-- A run of `n` consecutive such iterations from `s` to `s2`. -/
def under_rate_run (hrm : heart_rate_monitor_t) : Nat → controller → controller → Prop
  | 0, s, s2 => s = s2
  | n + 1, s, s2 => ∃ m, under_rate_run hrm n s m ∧ under_rate_tick hrm m s2

/-- The actuator `a` after `freq_data->cur_index = c` and `set_value = f` on
its ladder `d`. -/
def moved_to (a : actuator_t) (d : freq_scaler_data_t) (c : Int) (f : Nat) : actuator_t :=
  { a with set_value := f, data := some { d with cur_index := c } }

/-- The actuator `a` after `set_value = r`. -/
def requesting (a : actuator_t) (r : Nat) : actuator_t := { a with set_value := r }

/-- What one acknowledged under-rate iteration does to the state seen through
the bindings `b`, from `acts` to `acts2`: the bounds and the frequency arrays
stay, the requested core count is again the current one, and either the last
active core moves one index towards 0, or (at index 0, below `max`) the core
count grows by one and the new core starts at its last index, or (at index 0
and `max`) nothing moves. -/
def step_post (b : statics) (acts acts2 : List actuator_t) : Prop :=
  ∃ ca ca2, core_count_act b acts = some ca ∧ core_count_act b acts2 = some ca2 ∧
    ca2.max = ca.max ∧ ca2.set_value = ca2.value ∧
    (∀ c, c < ca.max → (ladder b acts2 c).map (fun d => d.freq_array)
      = (ladder b acts c).map (fun d => d.freq_array)) ∧
    ((0 < cursor b acts (ca.value - 1) ∧ ca2.value = ca.value ∧
        cursor b acts2 (ca.value - 1) = cursor b acts (ca.value - 1) - 1 ∧
        ∀ c, c < ca.max → c ≠ ca.value - 1 → cursor b acts2 c = cursor b acts c) ∨
     (cursor b acts (ca.value - 1) = 0 ∧ ca.value < ca.max ∧ ca2.value = ca.value + 1 ∧
        (∃ d, ladder b acts2 ca.value = some d ∧ d.cur_index = d.freq_count - 1) ∧
        ∀ c, c < ca.max → c ≠ ca.value → cursor b acts2 c = cursor b acts c) ∨
     (cursor b acts (ca.value - 1) = 0 ∧ ca.value = ca.max ∧ ca2.value = ca.value ∧
        ∀ c, c < ca.max → cursor b acts2 c = cursor b acts c))

/-- The number of frequencies of core `c` (0 when the core has no ladder). -/
def ladder_len (b : statics) (acts : List actuator_t) (c : Nat) : Nat :=
  match ladder b acts c with
  | some d => d.freq_array.length
  | none => 0

/-- The number of under-rate iterations still needed to finish the joint
ladder: the cursor of the last active core, plus the ladder length of every
core not yet active. -/
def remaining_steps (b : statics) (acts : List actuator_t) : Nat :=
  match core_count_act b acts with
  | some ca =>
    (cursor b acts (ca.value - 1)).toNat
      + ∑ c in Finset.Ico ca.value ca.max, ladder_len b acts c
  | none => 0

/-- Every active core below the last one has its cursor at index 0. -/
def lower_cursors_at_zero (b : statics) (acts : List actuator_t) : Prop :=
  ∀ c, c + 1 < core_value b acts → cursor b acts c = 0

/-! ## Ceiling and floor of a ladder, as frequencies -/

/-- The ladder is at its ceiling (fastest): the frequency under the cursor is
the highest of the frequency array. -/
def ladder_at_ceiling (d : freq_scaler_data_t) : Prop :=
  match array_get d.freq_array d.cur_index with
  | some f => ∀ x ∈ d.freq_array, x ≤ f
  | none => False

instance (d : freq_scaler_data_t) : Decidable (ladder_at_ceiling d) := by
  unfold ladder_at_ceiling; split <;> infer_instance

/-- The ladder is at its floor (slowest): the frequency under the cursor is
the lowest of the frequency array. -/
def ladder_at_floor (d : freq_scaler_data_t) : Prop :=
  match array_get d.freq_array d.cur_index with
  | some f => ∀ x ∈ d.freq_array, f ≤ x
  | none => False

instance (d : freq_scaler_data_t) : Decidable (ladder_at_floor d) := by
  unfold ladder_at_floor; split <;> infer_instance

/-- The frequency actuator `freq_acts[c]` of core `c` under the bindings `b`. -/
def freq_act (b : statics) (acts : List actuator_t) (c : Nat) : Option actuator_t :=
  (ladder_index b c).bind (fun i => acts[i]?)

/-- The frequency actuator `a` rests on its ladder `d`: its requested
frequency is the entry of the frequency array under the cursor, and its
current frequency is the requested one. -/
def rests_on (a : actuator_t) (d : freq_scaler_data_t) : Prop :=
  a.data = some d ∧ array_get d.freq_array d.cur_index = some a.set_value ∧
    a.value = a.set_value

/-- Core `c` runs at the frequency under the cursor of its ladder. -/
def core_settled (b : statics) (acts : List actuator_t) (c : Nat) : Prop :=
  ∃ a d, freq_act b acts c = some a ∧ rests_on a d

/-- Core `c` runs at its ceiling: its current and requested frequency are the
entry under the cursor of its ladder, the highest of the frequency array. -/
def core_at_ceiling (b : statics) (acts : List actuator_t) (c : Nat) : Prop :=
  ∃ a d, freq_act b acts c = some a ∧ rests_on a d ∧ ladder_at_ceiling d

/-- Core `c` runs at its floor: its current and requested frequency are the
entry under the cursor of its ladder, the lowest of the frequency array. -/
def core_at_floor (b : statics) (acts : List actuator_t) (c : Nat) : Prop :=
  ∃ a d, freq_act b acts c = some a ∧ rests_on a d ∧ ladder_at_floor d

/-- The ladder of every core below `max` is strictly descending. -/
def ladders_descending (b : statics) (acts : List actuator_t) : Prop :=
  ∀ ca, core_count_act b acts = some ca →
    ∀ c d, c < ca.max → ladder b acts c = some d → descending d.freq_array

/-- Every active core runs at the frequency under the cursor of its ladder. -/
def active_cores_settled (b : statics) (acts : List actuator_t) : Prop :=
  ∀ c, c < core_value b acts → core_settled b acts c

/-- Every active core below the last active one runs at its ceiling. -/
def lower_cores_at_ceiling (b : statics) (acts : List actuator_t) : Prop :=
  ∀ c, c + 1 < core_value b acts → core_at_ceiling b acts c

/-- What one acknowledged under-rate iteration does to the frequencies, from
`acts` to `acts2`: the active cores run at the frequency under their cursor
again if they did before, and a core that has just been added does so in any
case. -/
def settle_post (b : statics) (acts acts2 : List actuator_t) : Prop :=
  (active_cores_settled b acts → active_cores_settled b acts2) ∧
  (core_value b acts2 = core_value b acts + 1 → core_settled b acts2 (core_value b acts))

/-- The actuators `main` builds for a machine with two cores on the ladder
2000, 1000: the frequency actuators of core 0 and core 1 with cursors `c0` and
`c1`, the global frequency actuator, and the core-count actuator with
`min = 1`, `max = 2` and `v` active cores. -/
def controls_two_cores (c0 c1 : Int) (v : Nat) : List actuator_t :=
  [single_example 0 [2000, 1000] c0 (if c0 = 0 then 2000 else 1000)
      (if c0 = 0 then 2000 else 1000),
    single_example 1 [2000, 1000] c1 (if c1 = 0 then 2000 else 1000)
      (if c1 = 0 then 2000 else 1000),
    global_example [2000, 1000] 0 2000 2000,
    count_example 1 2 v]

/-- The same machine with the frequencies listed in ascending order, 1000,
2000. -/
def controls_two_cores_ascending (c0 c1 : Int) (v : Nat) : List actuator_t :=
  [single_example 0 [1000, 2000] c0 (if c0 = 0 then 1000 else 2000)
      (if c0 = 0 then 1000 else 2000),
    single_example 1 [1000, 2000] c1 (if c1 = 0 then 1000 else 2000)
      (if c1 = 0 then 1000 else 2000),
    global_example [1000, 2000] 0 1000 1000,
    count_example 1 2 v]

/-- Thresholds that cross: `min_rate = 20.0` above `max_rate = 10.0`. -/
def hrm_crossed : heart_rate_monitor_t := { min_rate := 20, max_rate := 10, window_size := 20 }

/-! ## Control loop: suppression and debounce -/

/-- C5 (suppression).  A sample whose beat lies before `skip_until_beat` is
only observed: whatever the decision function and the operating system would
do, the iteration returns, issues no call, leaves the actuators, the statics
and `skip_until_beat` as they were, sets `last_beat` to the sample's beat and
prints the marker `.`, whatever the sample's rate. -/
theorem suppressed_tick_changes_nothing (hrm : heart_rate_monitor_t)
    (decision_f : decision_function_t) (hw : Nat → hardware) (s : controller)
    (current : heartbeat_record_t) (hskip : current.beat < s.skip_until_beat) :
    ∃ r, main_loop_body hrm decision_f hw s current = some r ∧
      r.next.controls = s.controls ∧ r.next.statics = s.statics ∧
      r.next.skip_until_beat = s.skip_until_beat ∧ r.next.last_beat = current.beat ∧
      r.calls = [] ∧ r.status.action = '.' ∧
      r.status.values = s.controls.map (fun a => a.value) := by
  simp [main_loop_body, hskip, print_status]

theorem suppressed_tick_changes_nothing_witness :
    ∃ r, main_loop_body hrm_example core_heuristics (fun _ => hw_accept 0)
        { controller_example [core_example 3 3] with skip_until_beat := 21 } ⟨7, 5⟩ = some r ∧
      r.next.controls = [core_example 3 3] ∧ r.next.statics = statics.initial ∧
      r.next.skip_until_beat = 21 ∧ r.next.last_beat = 7 ∧
      r.calls = [] ∧ r.status.action = '.' ∧
      r.status.values = [core_example 3 3].map (fun a => a.value) :=
  suppressed_tick_changes_nothing hrm_example core_heuristics (fun _ => hw_accept 0)
    { controller_example [core_example 3 3] with skip_until_beat := 21 } ⟨7, 5⟩ (by decide)

theorem set_same {α : Type} (l : List α) (p : Nat) (a : α) (h : l[p]? = some a) :
    l.set p a = l := by
  apply List.ext_getElem?
  intro q
  by_cases hq : p = q
  · subst hq
    rw [List.getElem?_set, if_pos rfl, h]
    obtain ⟨hlt, -⟩ := List.getElem?_eq_some.mp h
    simp [hlt]
  · rw [List.getElem?_set_ne hq]

theorem u64_add_small (a b : Nat) (h : a + b < 2 ^ 64) : u64_add a b = a + b := by
  unfold u64_add U64_MOD
  exact Nat.mod_eq_of_lt (by omega)

theorem u64_sub_small (a b : Nat) (hb : b ≤ a) (ha : a < 2 ^ 64) : u64_sub a b = a - b := by
  unfold u64_sub U64_MOD
  rw [if_pos hb]
  omega

/-! ## `core_heuristics` -/

/-- Where the requested value of the core-count actuator equals its current
value and the thresholds satisfy `min_rate <= max_rate`, `core_heuristics`
returns and changes at most the requested value of that actuator: under
`min_rate` it adds exactly 1 when the value is below `max` and leaves it
otherwise; over `max_rate` it subtracts exactly 1 when the value is above
`min` and leaves it otherwise; inside the band it leaves it. -/
theorem core_heuristics_requested (hrm : heart_rate_monitor_t) (st : statics)
    (current : heartbeat_record_t) (acts : List actuator_t) (p : Nat) (a : actuator_t)
    (hband : hrm.min_rate ≤ hrm.max_rate)
    (hp : lookup_static st.core_heuristics_core_act ACTUATOR_CORE_COUNT acts = some p)
    (ha : acts[p]? = some a)
    (hsync : a.set_value = a.value)
    (hrange : a.value < 2 ^ 64 ∧ a.max < 2 ^ 64) :
    ∃ r, core_heuristics hrm st current acts
        = some ({ st with core_heuristics_core_act := some p },
            acts.set p { a with set_value := r }) ∧
      (current.window_rate < hrm.min_rate →
        r = if a.set_value < a.max then a.set_value + 1 else a.set_value) ∧
      (current.window_rate > hrm.max_rate →
        r = if a.set_value > a.min then a.set_value - 1 else a.set_value) ∧
      (hrm.min_rate ≤ current.window_rate ∧ current.window_rate ≤ hrm.max_rate →
        r = a.set_value) := by
  have hsame : acts.set p { a with set_value := a.set_value } = acts := set_same acts p a ha
  by_cases hlow : current.window_rate < hrm.min_rate
  · have hnhigh : ¬ current.window_rate > hrm.max_rate := not_lt.mpr (le_trans hlow.le hband)
    by_cases hv : a.value < a.max
    · refine ⟨a.set_value + 1, ?_, ?_, fun h => absurd h hnhigh, fun h => absurd hlow (not_lt.mpr h.1)⟩
      · have hadd : u64_add a.set_value 1 = a.set_value + 1 :=
          u64_add_small _ _ (by omega)
        simp [core_heuristics, core_decide, hp, hlow, ha, hv, hadd]
      · intro _
        rw [if_pos (by omega)]
    · refine ⟨a.set_value, ?_, ?_, fun h => absurd h hnhigh, fun _ => rfl⟩
      · simp [core_heuristics, core_decide, hp, hlow, ha, hv, hsame]
      · intro _
        rw [if_neg (by omega)]
  · by_cases hhigh : current.window_rate > hrm.max_rate
    · by_cases hv : a.value > a.min
      · refine ⟨a.set_value - 1, ?_, fun h => absurd h hlow, ?_, fun h => absurd hhigh (not_lt.mpr h.2)⟩
        · have hsub : u64_sub a.set_value 1 = a.set_value - 1 :=
            u64_sub_small _ _ (by omega) (by omega)
          simp [core_heuristics, core_decide, hp, hlow, hhigh, ha, hv, hsub]
        · intro _
          rw [if_pos (by omega)]
      · refine ⟨a.set_value, ?_, fun h => absurd h hlow, ?_, fun _ => rfl⟩
        · simp [core_heuristics, core_decide, hp, hlow, hhigh, ha, hv, hsame]
        · intro _
          rw [if_neg (by omega)]
    · refine ⟨a.set_value, ?_, fun h => absurd h hlow, fun h => absurd h hhigh, fun _ => rfl⟩
      simp [core_heuristics, core_decide, hp, hlow, hhigh, hsame]

theorem core_heuristics_requested_witness :
    ∃ r, core_heuristics hrm_example statics.initial ⟨1, 5⟩ [core_example 2 2]
        = some ({ statics.initial with core_heuristics_core_act := some 0 },
            [core_example 2 2].set 0 { core_example 2 2 with set_value := r }) ∧
      ((5 : ℚ) < hrm_example.min_rate →
        r = if (core_example 2 2).set_value < (core_example 2 2).max
          then (core_example 2 2).set_value + 1 else (core_example 2 2).set_value) ∧
      ((5 : ℚ) > hrm_example.max_rate →
        r = if (core_example 2 2).set_value > (core_example 2 2).min
          then (core_example 2 2).set_value - 1 else (core_example 2 2).set_value) ∧
      (hrm_example.min_rate ≤ (5 : ℚ) ∧ (5 : ℚ) ≤ hrm_example.max_rate →
        r = (core_example 2 2).set_value) :=
  core_heuristics_requested hrm_example statics.initial ⟨1, 5⟩ [core_example 2 2] 0
    (core_example 2 2) (by decide) (by decide) (by decide) (by decide) (by decide)

/-- C1 at its failing input.  `min = 1`, `max = 4`, current value 3, requested
value 4, thresholds 10.0 and 20.0, sample rate 5.0: the sample is under-rate
and the requested value is not below `max`, yet `core_heuristics` returns with
the requested value raised to 5 (the current value and the bounds as they
were). -/
theorem core_heuristics_steps_requested_past_max :
    (5 : ℚ) < hrm_example.min_rate ∧
    ¬ (core_example 3 4).set_value < (core_example 3 4).max ∧
    core_heuristics hrm_example statics.initial ⟨1, 5⟩ [core_example 3 4]
      = some ({ statics.initial with core_heuristics_core_act := some 0 },
          [core_example 3 5]) := by
  decide

/-- C2 at its failing input.  `min = 1`, `max = 4`, current = requested = 3;
two consecutive evaluated under-rate samples (beats 1 and 21, rate 5.0 below
`min_rate = 10.0`) while `taskset` fails: the current value stays 3 and the
requested value ends at 5, above `max`. -/
theorem core_count_exceeds_max_after_failed_action :
    ((main_loop_body hrm_example core_heuristics (fun _ => hw_taskset_fails)
        (controller_example [core_example 3 3]) ⟨1, 5⟩).bind
      (fun r => main_loop_body hrm_example core_heuristics (fun _ => hw_taskset_fails)
        r.next ⟨21, 5⟩)).map
      (fun r => (r.next.controls, r.status.action))
    = some ([core_example 3 5], '*') := by
  decide

/-! ## `global_freq_act` -/

/-- C8 at its failing input.  Two cores, core 0 rejects the request: the only
`cpufreq_set_frequency` call issued is the one to core 0; core 1 receives
none.  The function returns 1. -/
theorem global_freq_act_stops_after_rejection :
    global_freq_act hw_core0_rejects (global_example [2000, 1000] 0 2000 1000)
      = ({ global_example [2000, 1000] 0 2000 1000 with value := 2000 }, 1,
          [hw_call.set_frequency 0 1000, hw_call.get_freq_kernel 0]) := by
  decide

/-! ## Initialisation of the frequency scaler -/

/-- C9 at its failing input.  The available frequencies are 2000 and 1000 and
the kernel reports 1500 as the current frequency: `single_freq_init` returns
0 with `cur_index = -1`. -/
theorem single_freq_init_cursor_not_found :
    single_freq_init (fun _ => cpufreq_example) single_example_uninit
      = init_result.ok
          { single_example_uninit with
            value := 1500, set_value := 1500, min := 1000, max := 2000,
            data := some { freq_array := [2000, 1000], cur_index := -1 } } := by
  decide

/-! ## `freq_heuristics` -/

theorem array_get_eq_some {α : Type} (l : List α) (i : Int) (x : α) :
    array_get l i = some x ↔ 0 ≤ i ∧ l[i.toNat]? = some x := by
  unfold array_get
  by_cases h : 0 ≤ i <;> simp [h]

theorem array_get_in_range {α : Type} (l : List α) (i : Int) (h0 : 0 ≤ i)
    (h1 : i < (l.length : Int)) : ∃ x, array_get l i = some x := by
  have hlt : i.toNat < l.length := by omega
  exact ⟨l[i.toNat], by simp [array_get, h0, List.getElem?_eq_getElem hlt]⟩

theorem array_get_bounds {α : Type} (l : List α) (i : Int) (x : α)
    (h : array_get l i = some x) : 0 ≤ i ∧ i < (l.length : Int) := by
  obtain ⟨h0, h1⟩ := (array_get_eq_some l i x).mp h
  obtain ⟨hlt, -⟩ := List.getElem?_eq_some.mp h1
  exact ⟨h0, by omega⟩

theorem descending_lt (l : List Nat) (hdesc : descending l) (i j : Int) (x y : Nat)
    (hi : array_get l i = some x) (hj : array_get l j = some y) (hij : i < j) : y < x := by
  obtain ⟨hi0, hi1⟩ := (array_get_eq_some l i x).mp hi
  obtain ⟨hj0, hj1⟩ := (array_get_eq_some l j y).mp hj
  obtain ⟨hil, hix⟩ := List.getElem?_eq_some.mp hi1
  obtain ⟨hjl, hjy⟩ := List.getElem?_eq_some.mp hj1
  have hlt : i.toNat < j.toNat := by omega
  have := (List.pairwise_iff_getElem.mp hdesc) i.toNat j.toNat hil hjl hlt
  rw [hix, hjy] at this
  exact this

/-- C3, as amended.  With thresholds `min_rate <= max_rate`, on a ladder that
is descending in frequency with index 0 the highest, and a global frequency
actuator whose requested value is the frequency under the cursor,
`freq_heuristics` returns; afterwards the requested value is again the
frequency under the cursor and the frequency array is the same.  An under-rate
sample with cursor above 0 lowers the cursor by one and raises the requested
frequency; an over-rate sample with cursor below the last index raises the
cursor by one and lowers the requested frequency; at the respective boundary
and inside the band neither the cursor nor the requested value changes. -/
theorem freq_heuristics_descending_ladder (hrm : heart_rate_monitor_t) (st : statics)
    (current : heartbeat_record_t) (acts : List actuator_t) (p : Nat) (a : actuator_t)
    (d : freq_scaler_data_t)
    (hband : hrm.min_rate ≤ hrm.max_rate)
    (hp : lookup_static st.freq_heuristics_freq_act ACTUATOR_GLOBAL_FREQ acts = some p)
    (ha : acts[p]? = some a) (hd : a.data = some d)
    (hdesc : descending d.freq_array)
    (hreq : array_get d.freq_array d.cur_index = some a.set_value) :
    ∃ c r, freq_heuristics hrm st current acts
        = some ({ st with freq_heuristics_freq_act := some p },
            acts.set p { a with set_value := r, data := some { d with cur_index := c } }) ∧
      array_get d.freq_array c = some r ∧
      (current.window_rate < hrm.min_rate → 0 < d.cur_index →
        c = d.cur_index - 1 ∧ a.set_value < r) ∧
      (current.window_rate > hrm.max_rate → d.cur_index < d.freq_count - 1 →
        c = d.cur_index + 1 ∧ r < a.set_value) ∧
      (current.window_rate < hrm.min_rate → d.cur_index = 0 →
        c = d.cur_index ∧ r = a.set_value) ∧
      (current.window_rate > hrm.max_rate → d.cur_index = d.freq_count - 1 →
        c = d.cur_index ∧ r = a.set_value) ∧
      (hrm.min_rate ≤ current.window_rate ∧ current.window_rate ≤ hrm.max_rate →
        c = d.cur_index ∧ r = a.set_value) := by
  obtain ⟨hc0, hc1⟩ := array_get_bounds _ _ _ hreq
  have hself : ({ a with set_value := a.set_value, data := some { d with cur_index := d.cur_index } } : actuator_t) = a := by
    cases a; simp_all
  have hsame : acts.set p { a with set_value := a.set_value, data := some { d with cur_index := d.cur_index } } = acts := by
    rw [hself]; exact set_same acts p a ha
  by_cases hlow : current.window_rate < hrm.min_rate
  · have hnhigh : ¬ current.window_rate > hrm.max_rate := not_lt.mpr (le_trans hlow.le hband)
    by_cases hcur : 0 < d.cur_index
    · obtain ⟨f, hf⟩ := array_get_in_range d.freq_array (d.cur_index - 1) (by omega) (by omega)
      refine ⟨d.cur_index - 1, f, ?_, hf, fun _ _ => ⟨rfl, ?_⟩, fun h => absurd h hnhigh,
        fun _ h => by omega, fun h => absurd h hnhigh, fun h => absurd hlow (not_lt.mpr h.1)⟩
      · simp [freq_heuristics, freq_decide, hp, ha, hlow, hd, hcur, hf]
      · exact descending_lt _ hdesc _ _ _ _ hf hreq (by omega)
    · refine ⟨d.cur_index, a.set_value, ?_, hreq, fun _ h => absurd h hcur,
        fun h => absurd h hnhigh, fun _ _ => ⟨rfl, rfl⟩, fun h => absurd h hnhigh,
        fun _ => ⟨rfl, rfl⟩⟩
      simp [freq_heuristics, freq_decide, hp, ha, hlow, hd, hcur, hsame]
  · by_cases hhigh : current.window_rate > hrm.max_rate
    · by_cases hcur : d.cur_index < d.freq_count - 1
      · have hcnt : d.freq_count = (d.freq_array.length : Int) := rfl
        obtain ⟨f, hf⟩ := array_get_in_range d.freq_array (d.cur_index + 1) (by omega) (by omega)
        refine ⟨d.cur_index + 1, f, ?_, hf, fun h => absurd h hlow, fun _ _ => ⟨rfl, ?_⟩,
          fun h => absurd h hlow, fun _ h => by omega, fun h => absurd hhigh (not_lt.mpr h.2)⟩
        · simp [freq_heuristics, freq_decide, hp, ha, hlow, hhigh, hd, hcur, hf]
        · exact descending_lt _ hdesc _ _ _ _ hreq hf (by omega)
      · refine ⟨d.cur_index, a.set_value, ?_, hreq, fun h => absurd h hlow,
          fun _ h => absurd h hcur, fun h => absurd h hlow, fun _ _ => ⟨rfl, rfl⟩,
          fun _ => ⟨rfl, rfl⟩⟩
        simp [freq_heuristics, freq_decide, hp, ha, hlow, hhigh, hd, hcur, hsame]
    · refine ⟨d.cur_index, a.set_value, ?_, hreq, fun h => absurd h hlow,
        fun h => absurd h hhigh, fun h => absurd h hlow, fun h => absurd h hhigh,
        fun _ => ⟨rfl, rfl⟩⟩
      simp [freq_heuristics, freq_decide, hp, ha, hlow, hhigh, hsame]

theorem freq_heuristics_descending_ladder_witness :
    ∃ c r, freq_heuristics hrm_example statics.initial ⟨1, 5⟩
          [global_example [2000, 1000] 1 1000 1000]
        = some ({ statics.initial with freq_heuristics_freq_act := some 0 },
            [global_example [2000, 1000] 1 1000 1000].set 0
              { global_example [2000, 1000] 1 1000 1000 with
                set_value := r, data := some { freq_array := [2000, 1000], cur_index := c } }) ∧
      array_get [2000, 1000] c = some r ∧
      ((5 : ℚ) < hrm_example.min_rate → (0 : Int) < 1 → c = 1 - 1 ∧ 1000 < r) ∧
      ((5 : ℚ) > hrm_example.max_rate → (1 : Int) < 2 - 1 → c = 1 + 1 ∧ r < 1000) ∧
      ((5 : ℚ) < hrm_example.min_rate → (1 : Int) = 0 → c = 1 ∧ r = 1000) ∧
      ((5 : ℚ) > hrm_example.max_rate → (1 : Int) = 2 - 1 → c = 1 ∧ r = 1000) ∧
      (hrm_example.min_rate ≤ (5 : ℚ) ∧ (5 : ℚ) ≤ hrm_example.max_rate → c = 1 ∧ r = 1000) :=
  freq_heuristics_descending_ladder hrm_example statics.initial ⟨1, 5⟩
    [global_example [2000, 1000] 1 1000 1000] 0 (global_example [2000, 1000] 1 1000 1000)
    { freq_array := [2000, 1000], cur_index := 1 }
    (by decide) (by decide) (by decide) (by decide) (by decide) (by decide)

/-- C3 as stated fails: on the ascending ladder 1000, 2000 with the cursor at
index 1 and 2000 requested, an under-rate sample moves the cursor to index 0
and the requested frequency drops to 1000. -/
theorem freq_heuristics_ascending_counterexample :
    ascending [1000, 2000] ∧ (5 : ℚ) < hrm_example.min_rate ∧
    freq_heuristics hrm_example statics.initial ⟨1, 5⟩
        [global_example [1000, 2000] 1 2000 2000]
      = some ({ statics.initial with freq_heuristics_freq_act := some 0 },
          [global_example [1000, 2000] 0 2000 1000]) ∧
    ¬ (2000 < 1000) := by
  decide

/-! ## Frame of the decision functions -/

theorem map_fixed_set (acts : List actuator_t) (p : Nat) (a b : actuator_t)
    (ha : acts[p]? = some a) (hb : b.fixed_part = a.fixed_part) :
    (acts.set p b).map actuator_t.fixed_part = acts.map actuator_t.fixed_part := by
  rw [List.map_set, hb]
  apply set_same
  rw [List.getElem?_map, ha]
  rfl

theorem fixed_part_set_value (a : actuator_t) (r : Nat) :
    ({ a with set_value := r } : actuator_t).fixed_part = a.fixed_part := rfl

theorem fixed_part_cursor (a : actuator_t) (d : freq_scaler_data_t) (r : Nat) (c : Int)
    (hd : a.data = some d) :
    ({ a with set_value := r, data := some { d with cur_index := c } } : actuator_t).fixed_part
      = a.fixed_part := by
  simp [actuator_t.fixed_part, hd]

theorem core_decide_frame (hrm : heart_rate_monitor_t) (core_act : Option Nat)
    (current : heartbeat_record_t) (acts acts1 : List actuator_t)
    (h : core_decide hrm core_act current acts = some acts1) :
    acts1.map actuator_t.fixed_part = acts.map actuator_t.fixed_part := by
  unfold core_decide at h
  repeat' split at h
  all_goals first
    | exact absurd h.symm (Option.some_ne_none _)
    | (simp only [Option.some.injEq] at h
       subst h
       first
         | rfl
         | exact map_fixed_set _ _ _ _ (by assumption) (fixed_part_set_value _ _))

theorem freq_decide_frame (hrm : heart_rate_monitor_t) (freq_act : Option Nat)
    (current : heartbeat_record_t) (acts acts1 : List actuator_t)
    (h : freq_decide hrm freq_act current acts = some acts1) :
    acts1.map actuator_t.fixed_part = acts.map actuator_t.fixed_part := by
  unfold freq_decide at h
  dsimp only at h
  repeat' split at h
  all_goals first
    | exact absurd h.symm (Option.some_ne_none _)
    | (simp only [Option.some.injEq] at h
       subst h
       first
         | rfl
         | exact map_fixed_set _ _ _ _ (by assumption)
             (fixed_part_cursor _ _ _ _ (by assumption)))

theorem step_under_rate_frame (st : statics) (acts acts1 : List actuator_t) (ci : Nat)
    (ca : actuator_t) (last_core : Int) (fi : Nat) (fa : actuator_t)
    (hca : acts[ci]? = some ca) (hfa : acts[fi]? = some fa)
    (h : step_under_rate st acts ci ca last_core fi fa = some acts1) :
    acts1.map actuator_t.fixed_part = acts.map actuator_t.fixed_part := by
  unfold step_under_rate at h
  split at h
  · exact absurd h.symm (Option.some_ne_none _)
  rename_i d hd
  split at h
  · dsimp only at h
    split at h
    · exact absurd h.symm (Option.some_ne_none _)
    rename_i f hf
    simp only [Option.some.injEq] at h
    subst h
    exact map_fixed_set _ _ _ _ hfa (fixed_part_cursor _ _ _ _ hd)
  · split at h
    · dsimp only at h
      split at h
      · exact absurd h.symm (Option.some_ne_none _)
      rename_i ni hni
      split at h
      · exact absurd h.symm (Option.some_ne_none _)
      rename_i na hna
      split at h
      · exact absurd h.symm (Option.some_ne_none _)
      rename_i nd hnd
      split at h
      · exact absurd h.symm (Option.some_ne_none _)
      rename_i f hf
      simp only [Option.some.injEq] at h
      subst h
      exact (map_fixed_set _ _ _ _ hna (fixed_part_cursor _ _ _ _ hnd)).trans
        (map_fixed_set _ _ _ _ hca (fixed_part_set_value _ _))
    · simp only [Option.some.injEq] at h
      subst h
      rfl

theorem step_over_rate_frame (acts acts1 : List actuator_t) (ci : Nat)
    (ca : actuator_t) (last_core : Int) (fi : Nat) (fa : actuator_t)
    (hca : acts[ci]? = some ca) (hfa : acts[fi]? = some fa)
    (h : step_over_rate acts ci ca last_core fi fa = some acts1) :
    acts1.map actuator_t.fixed_part = acts.map actuator_t.fixed_part := by
  unfold step_over_rate at h
  split at h
  · exact absurd h.symm (Option.some_ne_none _)
  rename_i d hd
  split at h
  · dsimp only at h
    split at h
    · exact absurd h.symm (Option.some_ne_none _)
    rename_i f hf
    simp only [Option.some.injEq] at h
    subst h
    exact map_fixed_set _ _ _ _ hfa (fixed_part_cursor _ _ _ _ hd)
  · split at h
    · simp only [Option.some.injEq] at h
      subst h
      exact map_fixed_set _ _ _ _ hca (fixed_part_set_value _ _)
    · simp only [Option.some.injEq] at h
      subst h
      rfl

theorem step_decide_some (hrm : heart_rate_monitor_t) (st : statics)
    (current : heartbeat_record_t) (acts acts1 : List actuator_t)
    (h : step_decide hrm st current acts = some acts1) :
    ∃ ci ca last fi fa, st.step_heuristics_core_act = some ci ∧ acts[ci]? = some ca ∧
      to_int (u64_sub ca.value 1) = some last ∧
      freq_acts_get st.step_heuristics_freq_acts last = some fi ∧ acts[fi]? = some fa ∧
      (if current.window_rate < hrm.min_rate then step_under_rate st acts ci ca last fi fa
        else if current.window_rate > hrm.max_rate then step_over_rate acts ci ca last fi fa
        else some acts) = some acts1 := by
  unfold step_decide at h
  cases hci : st.step_heuristics_core_act with
  | none => simp only [hci] at h; exact absurd h.symm (Option.some_ne_none _)
  | some ci =>
    simp only [hci] at h
    cases hca : acts[ci]? with
    | none => simp only [hca] at h; exact absurd h.symm (Option.some_ne_none _)
    | some ca =>
      simp only [hca] at h
      cases hlast : to_int (u64_sub ca.value 1) with
      | none => simp only [hlast] at h; exact absurd h.symm (Option.some_ne_none _)
      | some last =>
        simp only [hlast] at h
        cases hfi : freq_acts_get st.step_heuristics_freq_acts last with
        | none => simp only [hfi] at h; exact absurd h.symm (Option.some_ne_none _)
        | some fi =>
          simp only [hfi] at h
          cases hfa : acts[fi]? with
          | none => simp only [hfa] at h; exact absurd h.symm (Option.some_ne_none _)
          | some fa =>
            simp only [hfa] at h
            exact ⟨ci, ca, last, fi, fa, rfl, hca, hlast, hfi, hfa, h⟩

theorem step_decide_frame (hrm : heart_rate_monitor_t) (st : statics)
    (current : heartbeat_record_t) (acts acts1 : List actuator_t)
    (h : step_decide hrm st current acts = some acts1) :
    acts1.map actuator_t.fixed_part = acts.map actuator_t.fixed_part := by
  obtain ⟨ci, ca, last, fi, fa, -, hca, -, -, hfa, hr⟩ := step_decide_some _ _ _ _ _ h
  by_cases hlow : current.window_rate < hrm.min_rate
  · rw [if_pos hlow] at hr
    exact step_under_rate_frame _ _ _ _ _ _ _ _ hca hfa hr
  · rw [if_neg hlow] at hr
    by_cases hhigh : current.window_rate > hrm.max_rate
    · rw [if_pos hhigh] at hr
      exact step_over_rate_frame _ _ _ _ _ _ _ hca hfa hr
    · rw [if_neg hhigh] at hr
      simp only [Option.some.injEq] at hr
      subst hr
      rfl

/-- C7.  Whenever one of the five decision functions returns, the actuators it
hands back differ from the ones it received at most in requested values and
ladder cursors: there are as many, and `id`, `pid`, `core`, `action_f`, the
current `value`, `min`, `max`, the presence of a ladder and its frequency
array are the same at every position. -/
theorem decision_functions_frame (decision_f : decision_function_t)
    (hrm : heart_rate_monitor_t) (st st1 : statics) (current : heartbeat_record_t)
    (acts acts1 : List actuator_t)
    (hf : decision_f = dummy_control ∨ decision_f = core_heuristics ∨
      decision_f = freq_heuristics ∨ decision_f = uncoordinated_heuristics ∨
      decision_f = step_heuristics)
    (h : decision_f hrm st current acts = some (st1, acts1)) :
    acts1.map actuator_t.fixed_part = acts.map actuator_t.fixed_part := by
  have hcore : ∀ st st1 acts acts1, core_heuristics hrm st current acts = some (st1, acts1) →
      acts1.map actuator_t.fixed_part = acts.map actuator_t.fixed_part := by
    intro st st1 acts acts1 h
    simp only [core_heuristics] at h
    split at h
    · exact absurd h.symm (Option.some_ne_none _)
    · rename_i r hr
      simp only [Option.some.injEq, Prod.mk.injEq] at h
      rw [← h.2]
      exact core_decide_frame _ _ _ _ _ hr
  have hfreq : ∀ st st1 acts acts1, freq_heuristics hrm st current acts = some (st1, acts1) →
      acts1.map actuator_t.fixed_part = acts.map actuator_t.fixed_part := by
    intro st st1 acts acts1 h
    simp only [freq_heuristics] at h
    split at h
    · exact absurd h.symm (Option.some_ne_none _)
    · rename_i r hr
      simp only [Option.some.injEq, Prod.mk.injEq] at h
      rw [← h.2]
      exact freq_decide_frame _ _ _ _ _ hr
  rcases hf with rfl | rfl | rfl | rfl | rfl
  · simp only [dummy_control, Option.some.injEq, Prod.mk.injEq] at h
    rw [← h.2]
  · exact hcore _ _ _ _ h
  · exact hfreq _ _ _ _ h
  · simp only [uncoordinated_heuristics] at h
    split at h
    · exact absurd h.symm (Option.some_ne_none _)
    · rename_i st2 acts2 hr
      exact (hfreq _ _ _ _ h).trans (hcore _ _ _ _ hr)
  · simp only [step_heuristics] at h
    split at h
    · exact absurd h.symm (Option.some_ne_none _)
    · split at h
      · exact absurd h.symm (Option.some_ne_none _)
      · rename_i r hr
        simp only [Option.some.injEq, Prod.mk.injEq] at h
        rw [← h.2]
        exact step_decide_frame _ _ _ _ _ hr

theorem decision_functions_frame_witness :
    ([global_example [2000, 1000] 0 1000 2000, core_example 2 3].map actuator_t.fixed_part
      = [global_example [2000, 1000] 1 1000 1000, core_example 2 2].map actuator_t.fixed_part) :=
  decision_functions_frame uncoordinated_heuristics hrm_example statics.initial
    { statics.initial with core_heuristics_core_act := some 1, freq_heuristics_freq_act := some 0 }
    ⟨1, 5⟩ [global_example [2000, 1000] 1 1000 1000, core_example 2 2]
    [global_example [2000, 1000] 0 1000 2000, core_example 2 3]
    (Or.inr (Or.inr (Or.inr (Or.inl rfl)))) (by decide)

/-! ## `step_heuristics`: steady states -/

theorem step_heuristics_eq (hrm : heart_rate_monitor_t) (st st1 : statics)
    (current : heartbeat_record_t) (acts acts1 : List actuator_t)
    (hbind : step_bind st acts = some st1)
    (hdecide : step_decide hrm st1 current acts = some acts1) :
    step_heuristics hrm st current acts = some (st1, acts1) := by
  simp [step_heuristics, hbind, hdecide]

theorem to_int_eq_some (n : Nat) (i : Int) (h : to_int n = some i) :
    n < 2 ^ 31 ∧ i = (n : Int) := by
  unfold to_int INT_LIMIT at h
  split at h
  · simp only [Option.some.injEq] at h
    exact ⟨by omega, h.symm⟩
  · exact absurd h.symm (Option.some_ne_none _)

theorem to_u64_natCast (n : Nat) (h : n < 2 ^ 64) : to_u64 (n : Int) = n := by
  unfold to_u64 U64_MOD
  omega

theorem array_get_mem {α : Type} (l : List α) (i : Int) (x : α)
    (h : array_get l i = some x) : x ∈ l := by
  obtain ⟨-, h1⟩ := (array_get_eq_some l i x).mp h
  obtain ⟨hlt, hx⟩ := List.getElem?_eq_some.mp h1
  rw [← hx]
  exact List.getElem_mem hlt

theorem mem_array_get (l : List Nat) (x : Nat) (h : x ∈ l) :
    ∃ n : Nat, array_get l (n : Int) = some x := by
  obtain ⟨n, hn⟩ := List.mem_iff_getElem?.mp h
  exact ⟨n, (array_get_eq_some l (n : Int) x).mpr ⟨by omega, by simpa using hn⟩⟩

theorem ladder_at_ceiling_iff (d : freq_scaler_data_t) (f : Nat)
    (hf : array_get d.freq_array d.cur_index = some f) :
    ladder_at_ceiling d ↔ ∀ x ∈ d.freq_array, x ≤ f := by
  unfold ladder_at_ceiling
  rw [hf]

theorem ladder_at_floor_iff (d : freq_scaler_data_t) (f : Nat)
    (hf : array_get d.freq_array d.cur_index = some f) :
    ladder_at_floor d ↔ ∀ x ∈ d.freq_array, f ≤ x := by
  unfold ladder_at_floor
  rw [hf]

theorem ladder_at_ceiling_some (d : freq_scaler_data_t) (h : ladder_at_ceiling d) :
    ∃ f, array_get d.freq_array d.cur_index = some f := by
  unfold ladder_at_ceiling at h
  cases hf : array_get d.freq_array d.cur_index with
  | none => rw [hf] at h; exact h.elim
  | some f => exact ⟨f, rfl⟩

theorem ladder_at_floor_some (d : freq_scaler_data_t) (h : ladder_at_floor d) :
    ∃ f, array_get d.freq_array d.cur_index = some f := by
  unfold ladder_at_floor at h
  cases hf : array_get d.freq_array d.cur_index with
  | none => rw [hf] at h; exact h.elim
  | some f => exact ⟨f, rfl⟩

/-- On a descending ladder the ceiling is index 0. -/
theorem ceiling_cursor (d : freq_scaler_data_t) (hdesc : descending d.freq_array)
    (h : ladder_at_ceiling d) : d.cur_index = 0 := by
  obtain ⟨f, hf⟩ := ladder_at_ceiling_some d h
  have hall := (ladder_at_ceiling_iff d f hf).mp h
  obtain ⟨h0, h1⟩ := array_get_bounds _ _ _ hf
  by_contra hne
  have hpos : 0 < d.cur_index := by omega
  obtain ⟨g, hg⟩ := array_get_in_range d.freq_array 0 (le_refl _) (by omega)
  have hlt := descending_lt _ hdesc 0 d.cur_index g f hg hf hpos
  have := hall g (array_get_mem _ _ _ hg)
  omega

/-- On a descending ladder the floor is the last index. -/
theorem floor_cursor (d : freq_scaler_data_t) (hdesc : descending d.freq_array)
    (h : ladder_at_floor d) : d.cur_index = d.freq_count - 1 := by
  obtain ⟨f, hf⟩ := ladder_at_floor_some d h
  have hall := (ladder_at_floor_iff d f hf).mp h
  obtain ⟨h0, h1⟩ := array_get_bounds _ _ _ hf
  have hcnt : d.freq_count = (d.freq_array.length : Int) := rfl
  by_contra hne
  have hlt1 : d.cur_index < (d.freq_array.length : Int) - 1 := by omega
  obtain ⟨g, hg⟩ := array_get_in_range d.freq_array ((d.freq_array.length : Int) - 1)
    (by omega) (by omega)
  have hlt := descending_lt _ hdesc d.cur_index _ f g hf hg hlt1
  have := hall g (array_get_mem _ _ _ hg)
  omega

/-- On a descending ladder index 0 is the ceiling. -/
theorem cursor_ceiling (d : freq_scaler_data_t) (hdesc : descending d.freq_array) (f : Nat)
    (hf : array_get d.freq_array d.cur_index = some f) (hcur : d.cur_index = 0) :
    ladder_at_ceiling d := by
  rw [ladder_at_ceiling_iff d f hf]
  intro x hx
  obtain ⟨n, hn⟩ := mem_array_get _ x hx
  rw [hcur] at hf
  by_cases hz : n = 0
  · subst hz
    have e : array_get d.freq_array ((0 : Nat) : Int) = array_get d.freq_array 0 := rfl
    rw [e, hf] at hn
    simp only [Option.some.injEq] at hn
    omega
  · have := descending_lt _ hdesc 0 (n : Int) f x hf hn (by omega)
    omega

/-- On a descending ladder the last index is the floor. -/
theorem cursor_floor (d : freq_scaler_data_t) (hdesc : descending d.freq_array) (f : Nat)
    (hf : array_get d.freq_array d.cur_index = some f)
    (hcur : d.cur_index = d.freq_count - 1) : ladder_at_floor d := by
  rw [ladder_at_floor_iff d f hf]
  intro x hx
  obtain ⟨n, hn⟩ := mem_array_get _ x hx
  obtain ⟨-, hn1⟩ := array_get_bounds _ _ _ hn
  have hcnt : d.freq_count = (d.freq_array.length : Int) := rfl
  by_cases hz : (n : Int) = d.cur_index
  · rw [hz, hf] at hn
    simp only [Option.some.injEq] at hn
    omega
  · have := descending_lt _ hdesc (n : Int) d.cur_index x f hn hf (by omega)
    omega

theorem step_steady_cursors (hrm : heart_rate_monitor_t) (st st1 : statics)
    (acts : List actuator_t) (ca : actuator_t) (d : freq_scaler_data_t)
    (hbind : step_bind st acts = some st1)
    (hview : step_view st1 acts = some (ca, d)) :
    (ca.value = ca.max → d.cur_index = 0 →
      ∀ current : heartbeat_record_t, current.window_rate < hrm.min_rate →
        step_heuristics hrm st current acts = some (st1, acts)) ∧
    (hrm.min_rate ≤ hrm.max_rate → ca.value = ca.min → d.cur_index = d.freq_count - 1 →
      ∀ current : heartbeat_record_t, current.window_rate > hrm.max_rate →
        step_heuristics hrm st current acts = some (st1, acts)) := by
  unfold step_view at hview
  cases hci : st1.step_heuristics_core_act with
  | none => rw [hci] at hview; exact absurd hview.symm (Option.some_ne_none _)
  | some ci =>
  rw [hci] at hview
  simp only at hview
  cases hca : acts[ci]? with
  | none => rw [hca] at hview; exact absurd hview.symm (Option.some_ne_none _)
  | some ca1 =>
  rw [hca] at hview
  simp only at hview
  cases hlast : to_int (u64_sub ca1.value 1) with
  | none => rw [hlast] at hview; exact absurd hview.symm (Option.some_ne_none _)
  | some last =>
  rw [hlast] at hview
  simp only at hview
  cases hfi : freq_acts_get st1.step_heuristics_freq_acts last with
  | none => rw [hfi] at hview; exact absurd hview.symm (Option.some_ne_none _)
  | some fi =>
  rw [hfi] at hview
  simp only at hview
  cases hfa : acts[fi]? with
  | none => rw [hfa] at hview; exact absurd hview.symm (Option.some_ne_none _)
  | some fa =>
  rw [hfa] at hview
  simp only at hview
  cases hd : fa.data with
  | none => rw [hd] at hview; exact absurd hview.symm (Option.some_ne_none _)
  | some d1 =>
  rw [hd] at hview
  simp only [Option.some.injEq, Prod.mk.injEq] at hview
  obtain ⟨rfl, rfl⟩ := hview
  obtain ⟨hlt, hlast_eq⟩ := to_int_eq_some _ _ hlast
  have hu : to_u64 last = u64_sub ca1.value 1 := by
    rw [hlast_eq]
    exact to_u64_natCast _ (by omega)
  constructor
  · intro hmax hcur current hlow
    apply step_heuristics_eq _ _ _ _ _ _ hbind
    have h1 : ¬ d1.cur_index > 0 := by omega
    have h2 : ¬ to_u64 last < u64_sub ca1.max 1 := by
      rw [hu, hmax]; omega
    unfold step_decide
    rw [hci]
    simp only
    rw [hca]
    simp only
    rw [hlast]
    simp only
    rw [hfi]
    simp only
    rw [hfa]
    simp only
    rw [if_pos hlow]
    unfold step_under_rate
    rw [hd]
    simp only
    rw [if_neg h1, if_neg h2]
  · intro hband hmin hcur current hhigh
    apply step_heuristics_eq _ _ _ _ _ _ hbind
    have hnlow : ¬ current.window_rate < hrm.min_rate :=
      not_lt.mpr (le_trans hband hhigh.le)
    have h1 : ¬ d1.cur_index < d1.freq_count - 1 := by omega
    have h2 : ¬ to_u64 last > u64_sub ca1.min 1 := by
      rw [hu, hmin]; omega
    unfold step_decide
    rw [hci]
    simp only
    rw [hca]
    simp only
    rw [hlast]
    simp only
    rw [hfi]
    simp only
    rw [hfa]
    simp only
    rw [if_neg hnlow, if_pos hhigh]
    unfold step_over_rate
    rw [hd]
    simp only
    rw [if_neg h1, if_neg h2]

/-- C10, as amended.  On ladders that are descending in frequency (index 0 the
highest): in a state whose core-count actuator has its current value at `max`
and whose last active core has its ladder at the ceiling (the frequency under
the cursor is the highest of the ladder), `step_heuristics` on every
under-rate sample returns and hands back every actuator unchanged; and, with
thresholds `min_rate <= max_rate`, in a state whose core-count actuator has
its current value at `min` and whose last active core has its ladder at the
floor (the frequency under the cursor is the lowest of the ladder),
`step_heuristics` on every over-rate sample returns and hands back every
actuator unchanged. -/
theorem step_heuristics_steady_states (hrm : heart_rate_monitor_t)
    (st_hi st1_hi : statics) (acts_hi : List actuator_t) (ca_hi : actuator_t)
    (d_hi : freq_scaler_data_t)
    (st_lo st1_lo : statics) (acts_lo : List actuator_t) (ca_lo : actuator_t)
    (d_lo : freq_scaler_data_t)
    (hbind_hi : step_bind st_hi acts_hi = some st1_hi)
    (hview_hi : step_view st1_hi acts_hi = some (ca_hi, d_hi))
    (hdesc_hi : descending d_hi.freq_array)
    (hmax : ca_hi.value = ca_hi.max) (hceil : ladder_at_ceiling d_hi)
    (hbind_lo : step_bind st_lo acts_lo = some st1_lo)
    (hview_lo : step_view st1_lo acts_lo = some (ca_lo, d_lo))
    (hdesc_lo : descending d_lo.freq_array)
    (hmin : ca_lo.value = ca_lo.min) (hfloor : ladder_at_floor d_lo) :
    (∀ current : heartbeat_record_t, current.window_rate < hrm.min_rate →
      step_heuristics hrm st_hi current acts_hi = some (st1_hi, acts_hi)) ∧
    (hrm.min_rate ≤ hrm.max_rate →
      ∀ current : heartbeat_record_t, current.window_rate > hrm.max_rate →
        step_heuristics hrm st_lo current acts_lo = some (st1_lo, acts_lo)) :=
  ⟨fun current hlow =>
      (step_steady_cursors hrm st_hi st1_hi acts_hi ca_hi d_hi hbind_hi hview_hi).1 hmax
        (ceiling_cursor d_hi hdesc_hi hceil) current hlow,
    fun hband current hhigh =>
      (step_steady_cursors hrm st_lo st1_lo acts_lo ca_lo d_lo hbind_lo hview_lo).2 hband hmin
        (floor_cursor d_lo hdesc_lo hfloor) current hhigh⟩

theorem step_heuristics_steady_states_witness :
    (∀ current : heartbeat_record_t, current.window_rate < hrm_example.min_rate →
      step_heuristics hrm_example statics.initial current (controls_two_cores 0 0 2)
        = some (statics_two_cores, controls_two_cores 0 0 2)) ∧
    (hrm_example.min_rate ≤ hrm_example.max_rate →
      ∀ current : heartbeat_record_t, current.window_rate > hrm_example.max_rate →
        step_heuristics hrm_example statics.initial current (controls_two_cores 1 1 1)
          = some (statics_two_cores, controls_two_cores 1 1 1)) :=
  step_heuristics_steady_states hrm_example
    statics.initial statics_two_cores (controls_two_cores 0 0 2) (count_example 1 2 2)
    { freq_array := [2000, 1000], cur_index := 0 }
    statics.initial statics_two_cores (controls_two_cores 1 1 1) (count_example 1 2 1)
    { freq_array := [2000, 1000], cur_index := 1 }
    (by decide) (by decide) (by decide) (by decide) (by decide)
    (by decide) (by decide) (by decide) (by decide) (by decide)

/-- C10 as stated fails, in each half.  On the ascending ladder 1000, 2000 with
both cores active (`value = max = 2`) and the last active core at 2000, the
highest frequency of its ladder, an under-rate sample moves that core to index
0 and its requested frequency drops to 1000.  With thresholds that cross
(`min_rate = 20.0`, `max_rate = 10.0`), one core active (`value = min = 1`) at
1000, the lowest frequency of the descending ladder 2000, 1000, a sample of
rate 15.0 is over-rate, yet the cursor moves to index 0 and 2000 is
requested. -/
theorem step_heuristics_steady_states_counterexample :
    (ascending [1000, 2000] ∧
      step_view statics_two_cores (controls_two_cores_ascending 1 1 2)
        = some (count_example 1 2 2, { freq_array := [1000, 2000], cur_index := 1 }) ∧
      (count_example 1 2 2).value = (count_example 1 2 2).max ∧
      ladder_at_ceiling { freq_array := [1000, 2000], cur_index := 1 } ∧
      (5 : ℚ) < hrm_example.min_rate ∧
      step_heuristics hrm_example statics.initial ⟨1, 5⟩ (controls_two_cores_ascending 1 1 2)
        = some (statics_two_cores,
            [single_example 0 [1000, 2000] 1 2000 2000,
              single_example 1 [1000, 2000] 0 2000 1000,
              global_example [1000, 2000] 0 1000 1000,
              count_example 1 2 2])) ∧
    (descending [2000, 1000] ∧
      step_view statics_two_cores (controls_two_cores 1 1 1)
        = some (count_example 1 2 1, { freq_array := [2000, 1000], cur_index := 1 }) ∧
      (count_example 1 2 1).value = (count_example 1 2 1).min ∧
      ladder_at_floor { freq_array := [2000, 1000], cur_index := 1 } ∧
      (15 : ℚ) > hrm_crossed.max_rate ∧
      step_heuristics hrm_crossed statics.initial ⟨1, 15⟩ (controls_two_cores 1 1 1)
        = some (statics_two_cores,
            [single_example 0 [2000, 1000] 0 1000 2000,
              single_example 1 [2000, 1000] 1 1000 1000,
              global_example [2000, 1000] 0 2000 2000,
              count_example 1 2 1])) := by
  decide

/-! ## Acknowledged actuation -/

theorem call_action_ack (hw : hardware) (a : actuator_t)
    (h : hw.system a.set_value a.pid = 0 ∧ hw.cpufreq_get_freq_kernel a.core = a.set_value ∧
      hw.cpufreq_get_freq_kernel 0 = a.set_value) :
    (call_action hw a).1 = sync a := by
  obtain ⟨h1, h2, h3⟩ := h
  unfold call_action
  cases hk : a.action_f with
  | core_act => simp [core_act, h1, sync]
  | single_freq_act => simp [single_freq_act, h2, sync]
  | global_freq_act => simp [global_freq_act, h3, sync]

theorem sync_of_eq (a : actuator_t) (h : ¬ a.set_value ≠ a.value) : sync a = a := by
  have h1 : a.set_value = a.value := not_not.mp h
  cases a
  simp_all [sync]

theorem actuate_ack_from (hw : Nat → hardware) (l : List actuator_t) (k : Nat)
    (h : ∀ j a, l[j]? = some a →
      (hw (k + j)).system a.set_value a.pid = 0 ∧
      (hw (k + j)).cpufreq_get_freq_kernel a.core = a.set_value ∧
      (hw (k + j)).cpufreq_get_freq_kernel 0 = a.set_value) :
    (actuate hw l k).1 = l.map sync := by
  induction l generalizing k with
  | nil => simp [actuate]
  | cons a rest ih =>
    have hrest : (actuate hw rest (k + 1)).1 = rest.map sync := by
      apply ih
      intro j b hb
      have := h (j + 1) b (by simpa using hb)
      have e : k + 1 + j = k + (j + 1) := by omega
      rw [e]
      exact this
    have ha := h 0 a (by simp)
    by_cases hne : a.set_value ≠ a.value
    · simp only [actuate, List.map_cons]
      rw [if_pos hne, ← hrest, ← call_action_ack (hw k) a (by simpa using ha)]
    · simp only [actuate, List.map_cons]
      rw [if_neg hne, ← hrest, sync_of_eq a hne]

theorem actuate_ack (hw : Nat → hardware) (acts : List actuator_t)
    (h : acknowledges hw acts) : (actuate hw acts 0).1 = acts.map sync := by
  apply actuate_ack_from
  intro j a ha
  rw [Nat.zero_add]
  exact h j a ha

theorem hw_acknowledging_ack (acts : List actuator_t) :
    acknowledges (hw_acknowledging acts) acts := by
  intro i a ha
  simp [hw_acknowledging, ha]

theorem evaluated_tick_next (hrm : heart_rate_monitor_t) (decision_f : decision_function_t)
    (hw : Nat → hardware) (s : controller) (current : heartbeat_record_t) (st1 : statics)
    (acts1 : List actuator_t) (heval : ¬ current.beat < s.skip_until_beat)
    (hdecide : decision_f hrm s.statics current s.controls = some (st1, acts1))
    (hack : acknowledges hw acts1) :
    ∃ r, main_loop_body hrm decision_f hw s current = some r ∧
      r.next.statics = st1 ∧ r.next.controls = acts1.map sync := by
  have h1 := actuate_ack hw acts1 hack
  simp [main_loop_body, heval, hdecide, h1]

/-! ## Lookups through the bindings of `step_heuristics` -/

theorem ladder_map_sync (b : statics) (acts : List actuator_t) (c : Nat) :
    ladder b (acts.map sync) c = ladder b acts c := by
  unfold ladder
  cases ladder_index b c with
  | none => rfl
  | some i =>
    simp only [Option.some_bind, List.getElem?_map]
    cases acts[i]? with
    | none => rfl
    | some a => rfl

theorem core_count_act_map_sync (b : statics) (acts : List actuator_t) :
    core_count_act b (acts.map sync) = (core_count_act b acts).map sync := by
  unfold core_count_act
  cases b.step_heuristics_core_act with
  | none => rfl
  | some ci => simp only [Option.some_bind, List.getElem?_map]

theorem ladder_set_ne (b : statics) (acts : List actuator_t) (c i j : Nat) (x : actuator_t)
    (hi : ladder_index b c = some i) (hne : i ≠ j) :
    ladder b (acts.set j x) c = ladder b acts c := by
  unfold ladder
  rw [hi]
  simp only [Option.some_bind]
  rw [List.getElem?_set_ne (Ne.symm hne)]

theorem ladder_set_eq (b : statics) (acts : List actuator_t) (c j : Nat) (x a : actuator_t)
    (hi : ladder_index b c = some j) (ha : acts[j]? = some a) :
    ladder b (acts.set j x) c = x.data := by
  obtain ⟨hlt, -⟩ := List.getElem?_eq_some.mp ha
  unfold ladder
  rw [hi]
  simp only [Option.some_bind]
  rw [List.getElem?_set_self hlt]
  rfl

theorem ladder_some (b : statics) (acts : List actuator_t) (c i : Nat)
    (d : freq_scaler_data_t) (hi : ladder_index b c = some i)
    (hd : ladder b acts c = some d) : ∃ a, acts[i]? = some a ∧ a.data = some d := by
  unfold ladder at hd
  rw [hi] at hd
  simp only [Option.some_bind] at hd
  cases ha : acts[i]? with
  | none => rw [ha] at hd; exact absurd hd.symm (Option.some_ne_none _)
  | some a => rw [ha] at hd; exact ⟨a, rfl, hd⟩

theorem core_count_act_set_ne (b : statics) (acts : List actuator_t) (ci j : Nat)
    (x : actuator_t) (hci : b.step_heuristics_core_act = some ci) (hne : ci ≠ j) :
    core_count_act b (acts.set j x) = core_count_act b acts := by
  unfold core_count_act
  rw [hci]
  simp only [Option.some_bind]
  rw [List.getElem?_set_ne (Ne.symm hne)]

theorem core_count_act_set_eq (b : statics) (acts : List actuator_t) (ci : Nat)
    (x a : actuator_t) (hci : b.step_heuristics_core_act = some ci) (ha : acts[ci]? = some a) :
    core_count_act b (acts.set ci x) = some x := by
  obtain ⟨hlt, -⟩ := List.getElem?_eq_some.mp ha
  unfold core_count_act
  rw [hci]
  simp only [Option.some_bind]
  rw [List.getElem?_set_self hlt]

theorem last_core_eq (v : Nat) (h1 : 1 ≤ v) (h2 : v ≤ 16) :
    to_int (u64_sub v 1) = some ((v - 1 : Nat) : Int) := by
  have e : u64_sub v 1 = v - 1 := u64_sub_small v 1 h1 (by omega)
  rw [e]
  unfold to_int INT_LIMIT
  rw [if_pos (by omega)]

theorem step_bind_bound (st : statics) (acts : List actuator_t) (ci : Nat)
    (h : st.step_heuristics_core_act = some ci) : step_bind st acts = some st := by
  unfold step_bind
  rw [h]

theorem freq_act_map_sync (b : statics) (acts : List actuator_t) (c : Nat) :
    freq_act b (acts.map sync) c = (freq_act b acts c).map sync := by
  unfold freq_act
  cases ladder_index b c with
  | none => rfl
  | some i => simp only [Option.some_bind, List.getElem?_map]

theorem freq_act_set_ne (b : statics) (acts : List actuator_t) (c i j : Nat) (x : actuator_t)
    (hi : ladder_index b c = some i) (hne : i ≠ j) :
    freq_act b (acts.set j x) c = freq_act b acts c := by
  unfold freq_act
  rw [hi]
  simp only [Option.some_bind]
  rw [List.getElem?_set_ne (Ne.symm hne)]

theorem freq_act_set_eq (b : statics) (acts : List actuator_t) (c j : Nat) (x a : actuator_t)
    (hi : ladder_index b c = some j) (ha : acts[j]? = some a) :
    freq_act b (acts.set j x) c = some x := by
  obtain ⟨hlt, -⟩ := List.getElem?_eq_some.mp ha
  unfold freq_act
  rw [hi]
  simp only [Option.some_bind]
  rw [List.getElem?_set_self hlt]

theorem freq_act_index (b : statics) (acts : List actuator_t) (c i : Nat) (a : actuator_t)
    (hi : ladder_index b c = some i) (h : freq_act b acts c = some a) : acts[i]? = some a := by
  unfold freq_act at h
  rw [hi] at h
  exact h

theorem ladder_freq_act (b : statics) (acts : List actuator_t) (c : Nat) (a : actuator_t)
    (h : freq_act b acts c = some a) : ladder b acts c = a.data := by
  unfold freq_act at h
  unfold ladder
  cases hi : ladder_index b c with
  | none => rw [hi] at h; exact absurd h.symm (Option.some_ne_none _)
  | some i =>
    rw [hi] at h
    simp only [Option.some_bind] at h ⊢
    rw [h]
    rfl

theorem core_settled_synced (b : statics) (acts acts2 : List actuator_t) (c : Nat)
    (h : freq_act b acts2 c = (freq_act b acts c).map sync)
    (hs : core_settled b acts c) : core_settled b acts2 c := by
  obtain ⟨a, d, hfa, hdata, hget, -⟩ := hs
  rw [hfa] at h
  exact ⟨sync a, d, h, hdata, hget, rfl⟩

theorem core_settled_moved (b : statics) (acts2 : List actuator_t) (c : Nat) (a : actuator_t)
    (d : freq_scaler_data_t) (k : Int) (f : Nat)
    (h : freq_act b acts2 c = some (sync (moved_to a d k f)))
    (hf : array_get d.freq_array k = some f) : core_settled b acts2 c :=
  ⟨sync (moved_to a d k f), { d with cur_index := k }, h, rfl, hf, rfl⟩

/-! ## `step_heuristics` on an under-rate sample, branch by branch -/

theorem step_decide_raise (hrm : heart_rate_monitor_t) (b : statics)
    (current : heartbeat_record_t) (acts : List actuator_t) (ci fi : Nat)
    (ca fa : actuator_t) (d : freq_scaler_data_t)
    (hci : b.step_heuristics_core_act = some ci) (hca : acts[ci]? = some ca)
    (h1 : 1 ≤ ca.value) (h2 : ca.value ≤ 16)
    (hfi : ladder_index b (ca.value - 1) = some fi) (hfa : acts[fi]? = some fa)
    (hd : fa.data = some d) (hlow : current.window_rate < hrm.min_rate)
    (hpos : 0 < d.cur_index) (hlt : d.cur_index < d.freq_count) :
    ∃ f, array_get d.freq_array (d.cur_index - 1) = some f ∧
      step_decide hrm b current acts
        = some (acts.set fi (moved_to fa d (d.cur_index - 1) f)) := by
  have hcnt : d.freq_count = (d.freq_array.length : Int) := rfl
  obtain ⟨f, hf⟩ := array_get_in_range d.freq_array (d.cur_index - 1) (by omega) (by omega)
  refine ⟨f, hf, ?_⟩
  have hlast := last_core_eq ca.value h1 h2
  have hfi2 : freq_acts_get b.step_heuristics_freq_acts ((ca.value - 1 : Nat) : Int) = some fi :=
    hfi
  have hpos2 : d.cur_index > 0 := hpos
  unfold moved_to
  unfold step_decide
  rw [hci]
  simp only
  rw [hca]
  simp only
  rw [hlast]
  simp only
  rw [hfi2]
  simp only
  rw [hfa]
  simp only
  rw [if_pos hlow]
  unfold step_under_rate
  rw [hd]
  simp only
  rw [if_pos hpos2, hf]

theorem step_decide_add_core (hrm : heart_rate_monitor_t) (b : statics)
    (current : heartbeat_record_t) (acts : List actuator_t) (ci fi ni : Nat)
    (ca fa na : actuator_t) (d nd : freq_scaler_data_t)
    (hci : b.step_heuristics_core_act = some ci) (hca : acts[ci]? = some ca)
    (h1 : 1 ≤ ca.value) (hvmax : ca.value < ca.max) (h3 : ca.max ≤ 16)
    (hfi : ladder_index b (ca.value - 1) = some fi) (hfa : acts[fi]? = some fa)
    (hd : fa.data = some d) (hlow : current.window_rate < hrm.min_rate)
    (hzero : ¬ d.cur_index > 0)
    (hni : ladder_index b ca.value = some ni) (hne : ni ≠ ci) (hna : acts[ni]? = some na)
    (hnd : na.data = some nd) (hcount : 0 < nd.freq_count) :
    ∃ f, array_get nd.freq_array (nd.freq_count - 1) = some f ∧
      step_decide hrm b current acts = some
        ((acts.set ci (requesting ca (ca.value + 1))).set ni
          (moved_to na nd (nd.freq_count - 1) f)) := by
  have hcnt : nd.freq_count = (nd.freq_array.length : Int) := rfl
  obtain ⟨f, hf⟩ := array_get_in_range nd.freq_array (nd.freq_count - 1) (by omega) (by omega)
  refine ⟨f, hf, ?_⟩
  have hlast := last_core_eq ca.value h1 (by omega)
  have hfi2 : freq_acts_get b.step_heuristics_freq_acts ((ca.value - 1 : Nat) : Int) = some fi :=
    hfi
  have e : ((ca.value - 1 : Nat) : Int) + 1 = ((ca.value : Nat) : Int) := by omega
  have hni2 : freq_acts_get b.step_heuristics_freq_acts (((ca.value - 1 : Nat) : Int) + 1)
      = some ni := by
    rw [e]; exact hni
  have hcmp : to_u64 ((ca.value - 1 : Nat) : Int) < u64_sub ca.max 1 := by
    rw [to_u64_natCast _ (by omega), u64_sub_small _ _ (by omega) (by omega)]
    omega
  have hadd : u64_add ca.value 1 = ca.value + 1 := u64_add_small _ _ (by omega)
  have hna2 : (acts.set ci { ca with set_value := ca.value + 1 })[ni]? = some na := by
    rw [List.getElem?_set_ne (Ne.symm hne)]; exact hna
  unfold moved_to requesting
  unfold step_decide
  rw [hci]
  simp only
  rw [hca]
  simp only
  rw [hlast]
  simp only
  rw [hfi2]
  simp only
  rw [hfa]
  simp only
  rw [if_pos hlow]
  unfold step_under_rate
  rw [hd]
  simp only
  rw [if_neg hzero, if_pos hcmp, hni2]
  simp only
  rw [hadd, hna2]
  simp only
  rw [hnd]
  simp only
  rw [hf]

theorem step_decide_top (hrm : heart_rate_monitor_t) (b : statics)
    (current : heartbeat_record_t) (acts : List actuator_t) (ci fi : Nat)
    (ca fa : actuator_t) (d : freq_scaler_data_t)
    (hci : b.step_heuristics_core_act = some ci) (hca : acts[ci]? = some ca)
    (h1 : 1 ≤ ca.value) (hvmax : ca.value = ca.max) (h3 : ca.max ≤ 16)
    (hfi : ladder_index b (ca.value - 1) = some fi) (hfa : acts[fi]? = some fa)
    (hd : fa.data = some d) (hlow : current.window_rate < hrm.min_rate)
    (hzero : ¬ d.cur_index > 0) :
    step_decide hrm b current acts = some acts := by
  have hlast := last_core_eq ca.value h1 (by omega)
  have hfi2 : freq_acts_get b.step_heuristics_freq_acts ((ca.value - 1 : Nat) : Int) = some fi :=
    hfi
  have hcmp : ¬ to_u64 ((ca.value - 1 : Nat) : Int) < u64_sub ca.max 1 := by
    rw [to_u64_natCast _ (by omega), u64_sub_small _ _ (by omega) (by omega)]
    omega
  unfold step_decide
  rw [hci]
  simp only
  rw [hca]
  simp only
  rw [hlast]
  simp only
  rw [hfi2]
  simp only
  rw [hfa]
  simp only
  rw [if_pos hlow]
  unfold step_under_rate
  rw [hd]
  simp only
  rw [if_neg hzero, if_neg hcmp]

/-! ## One acknowledged under-rate iteration -/

theorem core_count_act_eq (b : statics) (acts : List actuator_t) (ci : Nat) (ca : actuator_t)
    (hci : b.step_heuristics_core_act = some ci) (hca : acts[ci]? = some ca) :
    core_count_act b acts = some ca := by
  unfold core_count_act
  rw [hci]
  exact hca

theorem cursor_eq (b : statics) (acts : List actuator_t) (c : Nat) (d : freq_scaler_data_t)
    (hd : ladder b acts c = some d) : cursor b acts c = d.cur_index := by
  unfold cursor
  rw [hd]

theorem cursor_congr (b : statics) (acts acts2 : List actuator_t) (c : Nat)
    (h : ladder b acts2 c = ladder b acts c) : cursor b acts2 c = cursor b acts c := by
  unfold cursor
  rw [h]

theorem core_value_eq (b : statics) (acts : List actuator_t) (ca : actuator_t)
    (h : core_count_act b acts = some ca) : core_value b acts = ca.value := by
  unfold core_value
  rw [h]

theorem sync_fixed (ca : actuator_t) (h : ca.set_value = ca.value) : sync ca = ca := by
  cases ca
  simp_all [sync]

theorem under_rate_step (hrm : heart_rate_monitor_t) (b : statics)
    (current : heartbeat_record_t) (acts : List actuator_t)
    (hready : stepwise_ready b acts) (hlow : current.window_rate < hrm.min_rate) :
    ∃ acts1, step_decide hrm b current acts = some acts1 ∧
      step_post b acts (acts1.map sync) ∧ settle_post b acts (acts1.map sync) := by
  obtain ⟨ci, ca, hci, hca, h1, h2, h3, hsync, hlad, hinj⟩ := hready
  have hcc := core_count_act_eq b acts ci ca hci hca
  have hv := core_value_eq b acts ca hcc
  have hc0 : ca.value - 1 < ca.max := by omega
  obtain ⟨fi, d, hfi, hfine, hd0, hdlo, hdhi⟩ := hlad (ca.value - 1) hc0
  obtain ⟨fa, hfa, hfad⟩ := ladder_some b acts _ fi d hfi hd0
  have hcur0 := cursor_eq b acts _ d hd0
  have hsc := sync_fixed ca hsync
  by_cases hpos : 0 < d.cur_index
  · obtain ⟨f, hf, hdec⟩ := step_decide_raise hrm b current acts ci fi ca fa d hci hca h1
      (by omega) hfi hfa hfad hlow hpos hdhi
    have hother : ∀ c, c < ca.max → c ≠ ca.value - 1 →
        ladder b ((acts.set fi (moved_to fa d (d.cur_index - 1) f)).map sync) c
          = ladder b acts c := by
      intro c hc hne
      obtain ⟨i, dc, hi, -, -, -, -⟩ := hlad c hc
      have hif : i ≠ fi := fun e => hne (hinj c _ hc hc0 (by rw [hi, hfi, e]))
      rw [ladder_map_sync, ladder_set_ne b acts c i fi _ hi hif]
    have hself : ladder b ((acts.set fi (moved_to fa d (d.cur_index - 1) f)).map sync) (ca.value - 1)
          = some { d with cur_index := d.cur_index - 1 } := by
      rw [ladder_map_sync, ladder_set_eq b acts _ fi _ fa hfi hfa]
      rfl
    have hcc2 : core_count_act b ((acts.set fi (moved_to fa d (d.cur_index - 1) f)).map sync)
        = some ca := by
      rw [core_count_act_map_sync, core_count_act_set_ne b acts ci fi _ hci (Ne.symm hfine),
        hcc]
      simp only [Option.map_some', hsc]
    have hv2 := core_value_eq b _ ca hcc2
    refine ⟨_, hdec, ⟨ca, ca, hcc, hcc2, rfl, hsync, ?_, Or.inl ⟨?_, rfl, ?_, ?_⟩⟩, ?_, ?_⟩
    · intro c hc
      by_cases hcc0 : c = ca.value - 1
      · subst hcc0
        rw [hself, hd0]
        rfl
      · rw [hother c hc hcc0]
    · rw [hcur0]; exact hpos
    · rw [cursor_eq b _ _ _ hself, hcur0]
    · intro c hc hne
      exact cursor_congr b _ _ c (hother c hc hne)
    · intro hs c hc
      rw [hv2] at hc
      by_cases hcc0 : c = ca.value - 1
      · subst hcc0
        refine core_settled_moved b _ _ fa d (d.cur_index - 1) f ?_ hf
        rw [freq_act_map_sync, freq_act_set_eq b acts _ fi _ fa hfi hfa]
        rfl
      · obtain ⟨i, dc, hi, -, -, -, -⟩ := hlad c (by omega)
        have hif : i ≠ fi := fun e => hcc0 (hinj c _ (by omega) hc0 (by rw [hi, hfi, e]))
        refine core_settled_synced b acts _ c ?_ (hs c (by rw [hv]; exact hc))
        rw [freq_act_map_sync, freq_act_set_ne b acts c i fi _ hi hif]
    · intro hgrow
      rw [hv2, hv] at hgrow
      omega
  · have hzero : ¬ d.cur_index > 0 := hpos
    have hd_zero : d.cur_index = 0 := by omega
    by_cases hvmax : ca.value < ca.max
    · obtain ⟨ni, nd, hni, hnine, hnd0, hndlo, hndhi⟩ := hlad ca.value hvmax
      obtain ⟨na, hna, hnad⟩ := ladder_some b acts _ ni nd hni hnd0
      obtain ⟨f, hf, hdec⟩ := step_decide_add_core hrm b current acts ci fi ni ca fa na d nd
        hci hca h1 hvmax h3 hfi hfa hfad hlow hzero hni hnine hna hnad (by omega)
      have hna2 : (acts.set ci (requesting ca (ca.value + 1)))[ni]? = some na := by
        rw [List.getElem?_set_ne (Ne.symm hnine)]; exact hna
      have hother : ∀ c, c < ca.max → c ≠ ca.value →
          ladder b (((acts.set ci (requesting ca (ca.value + 1))).set ni
            (moved_to na nd (nd.freq_count - 1) f)).map sync) c
            = ladder b acts c := by
        intro c hc hne
        obtain ⟨i, dc, hi, hici, -, -, -⟩ := hlad c hc
        have hin : i ≠ ni := fun e => hne (hinj c _ hc hvmax (by rw [hi, hni, e]))
        rw [ladder_map_sync, ladder_set_ne b _ c i ni _ hi hin,
          ladder_set_ne b acts c i ci _ hi hici]
      have hself : ladder b (((acts.set ci (requesting ca (ca.value + 1))).set ni
            (moved_to na nd (nd.freq_count - 1) f)).map sync)
            ca.value = some { nd with cur_index := nd.freq_count - 1 } := by
        rw [ladder_map_sync, ladder_set_eq b _ _ ni _ na hni hna2]
        rfl
      have hcc2 : core_count_act b (((acts.set ci (requesting ca (ca.value + 1))).set ni
            (moved_to na nd (nd.freq_count - 1) f)).map sync)
          = some (sync (requesting ca (ca.value + 1))) := by
        rw [core_count_act_map_sync, core_count_act_set_ne b _ ci ni _ hci (Ne.symm hnine),
          core_count_act_set_eq b acts ci _ ca hci hca]
        rfl
      have hv2 := core_value_eq b _ _ hcc2
      have hval2 : (sync (requesting ca (ca.value + 1))).value = ca.value + 1 := rfl
      have hnew : core_settled b (((acts.set ci (requesting ca (ca.value + 1))).set ni
            (moved_to na nd (nd.freq_count - 1) f)).map sync) ca.value := by
        refine core_settled_moved b _ _ na nd (nd.freq_count - 1) f ?_ hf
        rw [freq_act_map_sync, freq_act_set_eq b _ _ ni _ na hni hna2]
        rfl
      refine ⟨_, hdec, ⟨ca, sync (requesting ca (ca.value + 1)), hcc, hcc2, rfl, rfl, ?_,
        Or.inr (Or.inl ⟨?_, hvmax, rfl, ⟨_, hself, rfl⟩, ?_⟩)⟩, ?_, ?_⟩
      · intro c hc
        by_cases hcv : c = ca.value
        · subst hcv
          rw [hself, hnd0]
          rfl
        · rw [hother c hc hcv]
      · rw [hcur0]; exact hd_zero
      · intro c hc hne
        exact cursor_congr b _ _ c (hother c hc hne)
      · intro hs c hc
        rw [hv2, hval2] at hc
        by_cases hcv : c = ca.value
        · subst hcv
          exact hnew
        · obtain ⟨i, dc, hi, hici, -, -, -⟩ := hlad c (by omega)
          have hin : i ≠ ni := fun e => hcv (hinj c _ (by omega) hvmax (by rw [hi, hni, e]))
          refine core_settled_synced b acts _ c ?_ (hs c (by rw [hv]; omega))
          rw [freq_act_map_sync, freq_act_set_ne b _ c i ni _ hi hin,
            freq_act_set_ne b acts c i ci _ hi hici]
      · intro _
        rw [hv]
        exact hnew
    · have hveq : ca.value = ca.max := by omega
      have hdec := step_decide_top hrm b current acts ci fi ca fa d hci hca h1 hveq h3 hfi hfa
        hfad hlow hzero
      have hcc2 : core_count_act b (acts.map sync) = some ca := by
        rw [core_count_act_map_sync, hcc]
        simp only [Option.map_some', hsc]
      have hv2 := core_value_eq b _ ca hcc2
      refine ⟨_, hdec, ⟨ca, ca, hcc, hcc2, rfl, hsync, ?_,
        Or.inr (Or.inr ⟨?_, hveq, rfl, ?_⟩)⟩, ?_, ?_⟩
      · intro c _
        rw [ladder_map_sync]
      · rw [hcur0]; exact hd_zero
      · intro c _
        exact cursor_congr b _ _ c (ladder_map_sync b acts c)
      · intro hs c hc
        rw [hv2] at hc
        exact core_settled_synced b acts _ c (freq_act_map_sync b acts c)
          (hs c (by rw [hv]; exact hc))
      · intro hgrow
        rw [hv2, hv] at hgrow
        omega

/-! ## Invariants of an under-rate iteration -/

theorem ladder_of_array (b : statics) (acts acts2 : List actuator_t) (c : Nat)
    (d : freq_scaler_data_t) (hd : ladder b acts c = some d)
    (h : (ladder b acts2 c).map (fun d => d.freq_array)
      = (ladder b acts c).map (fun d => d.freq_array)) :
    ∃ d2, ladder b acts2 c = some d2 ∧ d2.freq_array = d.freq_array := by
  rw [hd] at h
  cases h2 : ladder b acts2 c with
  | none => rw [h2] at h; exact absurd h.symm (Option.some_ne_none _)
  | some d2 =>
    rw [h2] at h
    simp only [Option.map_some', Option.some.injEq] at h
    exact ⟨d2, rfl, h⟩

theorem ladder_len_eq (b : statics) (acts : List actuator_t) (c : Nat)
    (d : freq_scaler_data_t) (hd : ladder b acts c = some d) :
    ladder_len b acts c = d.freq_array.length := by
  unfold ladder_len
  rw [hd]

theorem stepwise_ready_next (b : statics) (acts acts2 : List actuator_t)
    (hready : stepwise_ready b acts) (hpost : step_post b acts acts2) :
    stepwise_ready b acts2 := by
  obtain ⟨ci, ca, hci, hca, h1, h2, h3, hsync, hlad, hinj⟩ := hready
  obtain ⟨ca0, ca2, hcc, hcc2, hmax, hs2, harr, hcases⟩ := hpost
  have hcc0 := core_count_act_eq b acts ci ca hci hca
  rw [hcc0] at hcc
  simp only [Option.some.injEq] at hcc
  subst hcc
  have hca2 : acts2[ci]? = some ca2 := by
    unfold core_count_act at hcc2
    rw [hci] at hcc2
    exact hcc2
  have hval : 1 ≤ ca2.value ∧ ca2.value ≤ ca2.max := by
    rcases hcases with ⟨-, hv, -, -⟩ | ⟨-, hlt, hv, -, -⟩ | ⟨-, -, hv, -⟩ <;> omega
  refine ⟨ci, ca2, hci, hca2, hval.1, hval.2, by omega, hs2, ?_, ?_⟩
  · intro c hc
    rw [hmax] at hc
    obtain ⟨i, d, hi, hne, hd, hlo, hhi⟩ := hlad c hc
    obtain ⟨d2, hd2, harr2⟩ := ladder_of_array b acts acts2 c d hd (harr c hc)
    have hcur := cursor_eq b acts c d hd
    have hcur2 := cursor_eq b acts2 c d2 hd2
    have hcnt : d2.freq_count = d.freq_count := by
      unfold freq_scaler_data_t.freq_count
      rw [harr2]
    refine ⟨i, d2, hi, hne, hd2, ?_⟩
    rw [hcnt]
    rcases hcases with ⟨hpos, -, hself, hoth⟩ | ⟨-, -, -, ⟨dn, hdn, hdncur⟩, hoth⟩ | ⟨-, -, -, hoth⟩
    · by_cases hcv : c = ca.value - 1
      · subst hcv
        rw [hcur2, hcur] at hself
        rw [hcur] at hpos
        omega
      · have := hoth c hc hcv
        rw [hcur2, hcur] at this
        omega
    · by_cases hcv : c = ca.value
      · subst hcv
        rw [hd2] at hdn
        simp only [Option.some.injEq] at hdn
        subst hdn
        omega
      · have := hoth c hc hcv
        rw [hcur2, hcur] at this
        omega
    · have := hoth c hc
      rw [hcur2, hcur] at this
      omega
  · intro c c2 hc hc2
    rw [hmax] at hc hc2
    exact hinj c c2 hc hc2

theorem lower_cores_next (b : statics) (acts acts2 : List actuator_t)
    (hready : stepwise_ready b acts) (hpost : step_post b acts acts2)
    (hlow : lower_cursors_at_zero b acts) : lower_cursors_at_zero b acts2 := by
  obtain ⟨ci, ca, hci, hca, h1, h2, h3, hsync, hlad, hinj⟩ := hready
  obtain ⟨ca0, ca2, hcc, hcc2, hmax, hs2, harr, hcases⟩ := hpost
  have hcc0 := core_count_act_eq b acts ci ca hci hca
  rw [hcc0] at hcc
  simp only [Option.some.injEq] at hcc
  subst hcc
  have hv := core_value_eq b acts ca hcc0
  have hv2 := core_value_eq b acts2 ca2 hcc2
  intro c hc
  rw [hv2] at hc
  unfold lower_cursors_at_zero at hlow
  rw [hv] at hlow
  rcases hcases with ⟨-, hval, -, hoth⟩ | ⟨hzero, hlt, hval, -, hoth⟩ | ⟨-, -, hval, hoth⟩
  · rw [hoth c (by omega) (by omega)]
    exact hlow c (by omega)
  · rw [hoth c (by omega) (by omega)]
    by_cases hcv : c = ca.value - 1
    · subst hcv; exact hzero
    · exact hlow c (by omega)
  · rw [hoth c (by omega)]
    exact hlow c (by omega)

theorem core_value_next (b : statics) (acts acts2 : List actuator_t)
    (hready : stepwise_ready b acts) (hpost : step_post b acts acts2) :
    core_value b acts ≤ core_value b acts2 ∧ core_value b acts2 ≤ core_value b acts + 1 ∧
    (core_value b acts2 = core_value b acts + 1 →
      ∃ d, ladder b acts2 (core_value b acts) = some d ∧ d.cur_index = d.freq_count - 1) ∧
    (∀ c, c + 1 < core_value b acts → cursor b acts2 c = cursor b acts c) := by
  obtain ⟨ci, ca, hci, hca, h1, h2, h3, hsync, hlad, hinj⟩ := hready
  obtain ⟨ca0, ca2, hcc, hcc2, hmax, hs2, harr, hcases⟩ := hpost
  have hcc0 := core_count_act_eq b acts ci ca hci hca
  rw [hcc0] at hcc
  simp only [Option.some.injEq] at hcc
  subst hcc
  rw [core_value_eq b acts ca hcc0, core_value_eq b acts2 ca2 hcc2]
  rcases hcases with ⟨-, hval, -, hoth⟩ | ⟨hzero, hlt, hval, hnew, hoth⟩ | ⟨-, -, hval, hoth⟩
  · exact ⟨by omega, by omega, fun h => by omega, fun c hc => hoth c (by omega) (by omega)⟩
  · exact ⟨by omega, by omega, fun _ => hnew, fun c hc => hoth c (by omega) (by omega)⟩
  · exact ⟨by omega, by omega, fun h => by omega, fun c hc => hoth c (by omega)⟩

/-! ## Frequencies along an under-rate iteration -/

theorem ladders_descending_next (b : statics) (acts acts2 : List actuator_t)
    (hpost : step_post b acts acts2) (hd : ladders_descending b acts) :
    ladders_descending b acts2 := by
  obtain ⟨ca, ca2, hcc, hcc2, hmax, hs2, harr, hcases⟩ := hpost
  intro ca3 hcc3 c d2 hc hl2
  rw [hcc2] at hcc3
  simp only [Option.some.injEq] at hcc3
  subst hcc3
  rw [hmax] at hc
  obtain ⟨d3, hl3, harr3⟩ : ∃ d3, ladder b acts c = some d3 ∧ d3.freq_array = d2.freq_array := by
    have h := harr c hc
    rw [hl2] at h
    cases hl : ladder b acts c with
    | none => rw [hl] at h; exact absurd h (Option.some_ne_none _)
    | some d =>
      rw [hl] at h
      simp only [Option.map_some', Option.some.injEq] at h
      exact ⟨d, rfl, h.symm⟩
  rw [← harr3]
  exact hd ca hcc c d3 hc hl3

theorem new_core_at_floor (b : statics) (acts acts2 : List actuator_t)
    (hready : stepwise_ready b acts) (hpost : step_post b acts acts2)
    (hsettle : settle_post b acts acts2) (hdesc2 : ladders_descending b acts2)
    (hgrow : core_value b acts2 = core_value b acts + 1) :
    core_at_floor b acts2 (core_value b acts) := by
  have hr2 := stepwise_ready_next b acts acts2 hready hpost
  obtain ⟨-, -, h3, -⟩ := core_value_next b acts acts2 hready hpost
  obtain ⟨d, hl, hcur⟩ := h3 hgrow
  obtain ⟨a, d2, hfa, hdata, hget, hval⟩ := hsettle.2 hgrow
  have hl2 := ladder_freq_act b acts2 _ a hfa
  rw [hdata, hl] at hl2
  simp only [Option.some.injEq] at hl2
  subst hl2
  obtain ⟨ci, ca2, hci, hca2, -, hle, -⟩ := hr2
  have hcc2 := core_count_act_eq b acts2 ci ca2 hci hca2
  have hv2 := core_value_eq b acts2 ca2 hcc2
  have hdesc := hdesc2 ca2 hcc2 (core_value b acts) d (by omega) hl
  exact ⟨a, d, hfa, ⟨hdata, hget, hval⟩, cursor_floor d hdesc a.set_value hget hcur⟩

theorem lower_ceiling_cursors (b : statics) (acts : List actuator_t)
    (hready : stepwise_ready b acts) (hdesc : ladders_descending b acts)
    (h : lower_cores_at_ceiling b acts) : lower_cursors_at_zero b acts := by
  obtain ⟨ci, ca, hci, hca, -, hle, -⟩ := hready
  have hcc := core_count_act_eq b acts ci ca hci hca
  have hv := core_value_eq b acts ca hcc
  intro c hc
  obtain ⟨a, d, hfa, ⟨hdata, -, -⟩, hceil⟩ := h c hc
  have hl := ladder_freq_act b acts c a hfa
  rw [hdata] at hl
  rw [hv] at hc
  rw [cursor_eq b acts c d hl]
  exact ceiling_cursor d (hdesc ca hcc c d (by omega) hl) hceil

theorem all_at_ceiling (b : statics) (acts : List actuator_t) (ca : actuator_t)
    (hcc : core_count_act b acts = some ca) (hveq : ca.value = ca.max)
    (hdesc : ladders_descending b acts) (hs : active_cores_settled b acts)
    (hz : ∀ c, c < ca.max → cursor b acts c = 0) :
    ∀ c, c < ca.max → core_at_ceiling b acts c := by
  intro c hc
  have hv := core_value_eq b acts ca hcc
  obtain ⟨a, d, hfa, hdata, hget, hval⟩ := hs c (by rw [hv]; omega)
  have hl := ladder_freq_act b acts c a hfa
  rw [hdata] at hl
  have hcur := hz c hc
  rw [cursor_eq b acts c d hl] at hcur
  exact ⟨a, d, hfa, ⟨hdata, hget, hval⟩,
    cursor_ceiling d (hdesc ca hcc c d hc hl) a.set_value hget hcur⟩

/-! ## The number of remaining steps -/

theorem remaining_steps_eq (b : statics) (acts : List actuator_t) (ca : actuator_t)
    (h : core_count_act b acts = some ca) :
    remaining_steps b acts = (cursor b acts (ca.value - 1)).toNat
      + ∑ c in Finset.Ico ca.value ca.max, ladder_len b acts c := by
  unfold remaining_steps
  rw [h]

theorem ladder_len_next (b : statics) (acts acts2 : List actuator_t) (c : Nat)
    (d : freq_scaler_data_t) (hd : ladder b acts c = some d)
    (h : (ladder b acts2 c).map (fun d => d.freq_array)
      = (ladder b acts c).map (fun d => d.freq_array)) :
    ladder_len b acts2 c = ladder_len b acts c := by
  obtain ⟨d2, hd2, harr⟩ := ladder_of_array b acts acts2 c d hd h
  rw [ladder_len_eq b acts2 c d2 hd2, ladder_len_eq b acts c d hd, harr]

theorem remaining_steps_next (b : statics) (acts acts2 : List actuator_t)
    (hready : stepwise_ready b acts) (hpost : step_post b acts acts2) :
    remaining_steps b acts2 = remaining_steps b acts - 1 := by
  obtain ⟨ci, ca, hci, hca, h1, h2, h3, hsync, hlad, hinj⟩ := hready
  obtain ⟨ca0, ca2, hcc, hcc2, hmax, hs2, harr, hcases⟩ := hpost
  have hcc0 := core_count_act_eq b acts ci ca hci hca
  rw [hcc0] at hcc
  simp only [Option.some.injEq] at hcc
  subst hcc
  rw [remaining_steps_eq b acts ca hcc0, remaining_steps_eq b acts2 ca2 hcc2, hmax]
  have hlen : ∀ c, c < ca.max → ladder_len b acts2 c = ladder_len b acts c := by
    intro c hc
    obtain ⟨i, d, -, -, hd, -, -⟩ := hlad c hc
    exact ladder_len_next b acts acts2 c d hd (harr c hc)
  have hsum : ∀ lo, ∑ c in Finset.Ico lo ca.max, ladder_len b acts2 c
      = ∑ c in Finset.Ico lo ca.max, ladder_len b acts c := by
    intro lo
    apply Finset.sum_congr rfl
    intro c hc
    exact hlen c (Finset.mem_Ico.mp hc).2
  rcases hcases with ⟨hpos, hval, hself, -⟩ | ⟨hzero, hlt, hval, ⟨dn, hdn, hdncur⟩, -⟩ | ⟨hzero, hveq, hval, hoth⟩
  · rw [hval, hself, hsum]
    omega
  · rw [hval, hsum, hzero, Finset.sum_eq_sum_Ico_succ_bot hlt]
    obtain ⟨i, d, -, -, hd, hlo, hhi⟩ := hlad ca.value hlt
    obtain ⟨d2, hd2, harr2⟩ := ladder_of_array b acts acts2 ca.value d hd (harr ca.value hlt)
    rw [hd2] at hdn
    simp only [Option.some.injEq] at hdn
    subst hdn
    have hcur2 : cursor b acts2 (ca.value + 1 - 1) = d2.cur_index := by
      rw [Nat.add_sub_cancel]
      exact cursor_eq b acts2 _ d2 hd2
    have hl := ladder_len_eq b acts ca.value d hd
    have hcnt : d2.freq_count = (d.freq_array.length : Int) := by
      unfold freq_scaler_data_t.freq_count
      rw [harr2]
    have hcnt1 : d.freq_count = (d.freq_array.length : Int) := rfl
    rw [hcur2, hl, hdncur, hcnt]
    omega
  · rw [hval, hoth (ca.value - 1) (by omega), hsum, hzero, hveq]
    simp

theorem remaining_zero_goal (b : statics) (acts : List actuator_t)
    (hready : stepwise_ready b acts) (hlow : lower_cursors_at_zero b acts)
    (hzero : remaining_steps b acts = 0) :
    ∃ ca, core_count_act b acts = some ca ∧ ca.value = ca.max ∧
      ∀ c, c < ca.max → cursor b acts c = 0 := by
  obtain ⟨ci, ca, hci, hca, h1, h2, h3, hsync, hlad, hinj⟩ := hready
  have hcc0 := core_count_act_eq b acts ci ca hci hca
  rw [remaining_steps_eq b acts ca hcc0] at hzero
  have hv := core_value_eq b acts ca hcc0
  unfold lower_cursors_at_zero at hlow
  rw [hv] at hlow
  obtain ⟨i, d, -, -, hd, hlo, hhi⟩ := hlad (ca.value - 1) (by omega)
  have hcur := cursor_eq b acts _ d hd
  have hveq : ca.value = ca.max := by
    by_contra hne
    have hlt : ca.value < ca.max := by omega
    obtain ⟨i2, d2, -, -, hd2, hlo2, hhi2⟩ := hlad ca.value hlt
    have hl := ladder_len_eq b acts ca.value d2 hd2
    have hcnt : d2.freq_count = (d2.freq_array.length : Int) := rfl
    rw [Finset.sum_eq_sum_Ico_succ_bot hlt, hl] at hzero
    omega
  refine ⟨ca, hcc0, hveq, ?_⟩
  intro c hc
  by_cases hcv : c = ca.value - 1
  · subst hcv
    rw [hcur] at hzero ⊢
    omega
  · exact hlow c (by omega)

/-! ## Runs of under-rate iterations -/

theorem ready_bound (b : statics) (acts : List actuator_t) (hready : stepwise_ready b acts)
    (acts2 : List actuator_t) : step_bind b acts2 = some b := by
  obtain ⟨ci, ca, hci, -⟩ := hready
  exact step_bind_bound b acts2 ci hci

theorem tick_post (hrm : heart_rate_monitor_t) (b : statics) (s s2 : controller)
    (hbind : step_bind s.statics s.controls = some b)
    (hready : stepwise_ready b s.controls) (htick : under_rate_tick hrm s s2) :
    s2.statics = b ∧ step_post b s.controls s2.controls ∧
      settle_post b s.controls s2.controls := by
  obtain ⟨current, hw, st1, acts1, r, heval, hlow, hpol, hack, hbody, hr⟩ := htick
  obtain ⟨acts2, hdec, hpost, hsettle⟩ := under_rate_step hrm b current s.controls hready hlow
  have hpol2 := step_heuristics_eq hrm s.statics b current s.controls acts2 hbind hdec
  rw [hpol2] at hpol
  simp only [Option.some.injEq, Prod.mk.injEq] at hpol
  obtain ⟨hst, hacts⟩ := hpol
  subst hst hacts
  obtain ⟨r2, hbody2, hst2, hctl2⟩ :=
    evaluated_tick_next hrm step_heuristics hw s current b acts2 heval hpol2 hack
  rw [hbody2] at hbody
  simp only [Option.some.injEq] at hbody
  subst hbody
  subst hr
  rw [hctl2]
  exact ⟨hst2, hpost, hsettle⟩

theorem tick_exists (hrm : heart_rate_monitor_t) (b : statics) (s : controller)
    (hbind : step_bind s.statics s.controls = some b)
    (hready : stepwise_ready b s.controls) : ∃ s2, under_rate_tick hrm s s2 := by
  have hlow : (hrm.min_rate - 1 : ℚ) < hrm.min_rate := by linarith
  obtain ⟨acts2, hdec, -⟩ :=
    under_rate_step hrm b ⟨s.skip_until_beat, hrm.min_rate - 1⟩ s.controls hready hlow
  have hpol := step_heuristics_eq hrm s.statics b ⟨s.skip_until_beat, hrm.min_rate - 1⟩
    s.controls acts2 hbind hdec
  have hack := hw_acknowledging_ack acts2
  obtain ⟨r, hbody, -, -⟩ := evaluated_tick_next hrm step_heuristics (hw_acknowledging acts2) s
    ⟨s.skip_until_beat, hrm.min_rate - 1⟩ b acts2 (lt_irrefl _) hpol hack
  exact ⟨r.next, ⟨s.skip_until_beat, hrm.min_rate - 1⟩, hw_acknowledging acts2, b, acts2, r,
    lt_irrefl _, hlow, hpol, hack, hbody, rfl⟩

theorem run_invariant (hrm : heart_rate_monitor_t) (b : statics) (s0 : controller)
    (hbind : step_bind s0.statics s0.controls = some b)
    (hready : stepwise_ready b s0.controls) :
    ∀ n s, under_rate_run hrm n s0 s →
      step_bind s.statics s.controls = some b ∧ stepwise_ready b s.controls ∧
      remaining_steps b s.controls = remaining_steps b s0.controls - n ∧
      core_value b s0.controls ≤ core_value b s.controls ∧
      (∀ c, c + 1 < core_value b s0.controls →
        cursor b s.controls c = cursor b s0.controls c) ∧
      (lower_cursors_at_zero b s0.controls → lower_cursors_at_zero b s.controls) ∧
      (ladders_descending b s0.controls → ladders_descending b s.controls) ∧
      (active_cores_settled b s0.controls → active_cores_settled b s.controls) := by
  intro n
  induction n with
  | zero =>
    intro s hrun
    have e : s0 = s := hrun
    subst e
    exact ⟨hbind, hready, rfl, le_refl _, fun _ _ => rfl, fun h => h, fun h => h, fun h => h⟩
  | succ n ih =>
    intro s hrun
    obtain ⟨m, hm, htick⟩ := hrun
    obtain ⟨hb, hr, hrem, hmono, hkeep, hlowc, hdesc, hset⟩ := ih m hm
    obtain ⟨hst, hpost, hsettle⟩ := tick_post hrm b m s hb hr htick
    have hr2 := stepwise_ready_next b m.controls s.controls hr hpost
    obtain ⟨hle, -, -, hk⟩ := core_value_next b m.controls s.controls hr hpost
    refine ⟨?_, hr2, ?_, le_trans hmono hle, ?_, ?_, ?_, ?_⟩
    · rw [hst]
      exact ready_bound b s.controls hr2 s.controls
    · rw [remaining_steps_next b m.controls s.controls hr hpost, hrem]
      omega
    · intro c hc
      rw [hk c (by omega), hkeep c hc]
    · intro h
      exact lower_cores_next b m.controls s.controls hr hpost (hlowc h)
    · intro h
      exact ladders_descending_next b m.controls s.controls hpost (hdesc h)
    · intro h
      exact hsettle.1 (hset h)

theorem run_exists (hrm : heart_rate_monitor_t) (b : statics) (s0 : controller)
    (hbind : step_bind s0.statics s0.controls = some b)
    (hready : stepwise_ready b s0.controls) : ∀ n, ∃ s, under_rate_run hrm n s0 s := by
  intro n
  induction n with
  | zero => exact ⟨s0, rfl⟩
  | succ n ih =>
    obtain ⟨m, hm⟩ := ih
    obtain ⟨hb, hr, -⟩ := run_invariant hrm b s0 hbind hready n m hm
    obtain ⟨s2, htick⟩ := tick_exists hrm b m hb hr
    exact ⟨s2, m, hm, htick⟩

/-- C6, as amended.  Take a state in which `step_heuristics` is bound, the
core-count actuator has `1 <= value = set_value <= max <= 16`, and every core
below `max` has a frequency actuator of its own whose cursor lies inside its
ladder.  Runs of consecutive evaluated under-rate iterations with acknowledged
actions exist from it of every length.  Along such a run an iteration never
lowers the core count and raises it by at most one; where the ladders are
descending in frequency (index 0 the highest), a core that has just been added
runs at its floor: its current and requested frequency are the entry under
its cursor, the lowest of its ladder.  Where moreover every active core runs
at the frequency under its cursor and every active core below the last active
one runs at its ceiling, after finitely many iterations every reached state
has the core count at `max` and every core below `max` at its ceiling: current
and requested frequency are the entry under the cursor, the highest of the
ladder. -/
theorem stepwise_full_ladder (hrm : heart_rate_monitor_t) (b : statics) (s0 : controller)
    (hbind : step_bind s0.statics s0.controls = some b)
    (hready : stepwise_ready b s0.controls) :
    (∀ n, ∃ s, under_rate_run hrm n s0 s) ∧
    (∀ n s s2, under_rate_run hrm n s0 s → under_rate_tick hrm s s2 →
      core_value b s.controls ≤ core_value b s2.controls ∧
      core_value b s2.controls ≤ core_value b s.controls + 1 ∧
      (core_value b s2.controls = core_value b s.controls + 1 →
        ladders_descending b s0.controls →
        core_at_floor b s2.controls (core_value b s.controls))) ∧
    (ladders_descending b s0.controls → active_cores_settled b s0.controls →
      lower_cores_at_ceiling b s0.controls →
      ∃ N, ∀ n, N ≤ n → ∀ s, under_rate_run hrm n s0 s →
        ∃ ca, core_count_act b s.controls = some ca ∧ ca.value = ca.max ∧
          ∀ c, c < ca.max → core_at_ceiling b s.controls c) := by
  refine ⟨run_exists hrm b s0 hbind hready, ?_, ?_⟩
  · intro n s s2 hrun htick
    obtain ⟨hb, hr, -, -, -, -, hdesc, -⟩ := run_invariant hrm b s0 hbind hready n s hrun
    obtain ⟨-, hpost, hsettle⟩ := tick_post hrm b s s2 hb hr htick
    obtain ⟨h1, h2, -, -⟩ := core_value_next b s.controls s2.controls hr hpost
    refine ⟨h1, h2, fun hgrow hd0 => ?_⟩
    exact new_core_at_floor b s.controls s2.controls hr hpost hsettle
      (ladders_descending_next b s.controls s2.controls hpost (hdesc hd0)) hgrow
  · intro hd0 hs0 hceil
    have hlow0 := lower_ceiling_cursors b s0.controls hready hd0 hceil
    refine ⟨remaining_steps b s0.controls, ?_⟩
    intro n hn s hrun
    obtain ⟨-, hr, hrem, -, -, hlowc, hdesc, hset⟩ :=
      run_invariant hrm b s0 hbind hready n s hrun
    obtain ⟨ca, hcc, hveq, hz⟩ := remaining_zero_goal b s.controls hr (hlowc hlow0) (by omega)
    exact ⟨ca, hcc, hveq, all_at_ceiling b s.controls ca hcc hveq (hdesc hd0) (hset hs0) hz⟩

/-! ## The joint ladder on a machine with two cores -/

theorem ready_two_cores (c0 c1 : Int) (v : Nat) (h0 : 0 ≤ c0 ∧ c0 < 2) (h1 : 0 ≤ c1 ∧ c1 < 2)
    (hv : 1 ≤ v ∧ v ≤ 2) : stepwise_ready statics_two_cores (controls_two_cores c0 c1 v) := by
  refine ⟨3, count_example 1 2 v, rfl, rfl, hv.1, hv.2, (by decide : (2 : Nat) ≤ 16), rfl, ?_, ?_⟩
  · intro c hc
    have hc2 : c < 2 := hc
    interval_cases c
    · exact ⟨0, { freq_array := [2000, 1000], cur_index := c0 },
        (by decide : ladder_index statics_two_cores 0 = some 0), (by decide : 0 ≠ 3), rfl,
        h0.1, h0.2⟩
    · exact ⟨1, { freq_array := [2000, 1000], cur_index := c1 },
        (by decide : ladder_index statics_two_cores 1 = some 1), (by decide : 1 ≠ 3), rfl,
        h1.1, h1.2⟩
  · intro c c2 hc hc2 h
    have hc3 : c < 2 := hc
    have hc4 : c2 < 2 := hc2
    interval_cases c <;> interval_cases c2 <;>
      first
        | rfl
        | exact absurd h (by decide)

theorem bind_two_cores (c0 c1 : Int) (v : Nat) :
    step_bind statics.initial (controls_two_cores c0 c1 v) = some statics_two_cores := by
  rfl

theorem descending_two_cores (c0 c1 : Int) (v : Nat) :
    ladders_descending statics_two_cores (controls_two_cores c0 c1 v) := by
  intro ca hcc c d hc hl
  have e : core_count_act statics_two_cores (controls_two_cores c0 c1 v)
      = some (count_example 1 2 v) := rfl
  rw [e] at hcc
  simp only [Option.some.injEq] at hcc
  subst hcc
  have hc2 : c < 2 := hc
  interval_cases c
  · have e0 : ladder statics_two_cores (controls_two_cores c0 c1 v) 0
        = some { freq_array := [2000, 1000], cur_index := c0 } := rfl
    rw [e0] at hl
    simp only [Option.some.injEq] at hl
    subst hl
    exact (by decide : descending [2000, 1000])
  · have e1 : ladder statics_two_cores (controls_two_cores c0 c1 v) 1
        = some { freq_array := [2000, 1000], cur_index := c1 } := rfl
    rw [e1] at hl
    simp only [Option.some.injEq] at hl
    subst hl
    exact (by decide : descending [2000, 1000])

theorem settled_two_cores (v : Nat) (hv : v ≤ 2) :
    active_cores_settled statics_two_cores (controls_two_cores 1 1 v) := by
  intro c hc
  have e : core_value statics_two_cores (controls_two_cores 1 1 v) = v := rfl
  rw [e] at hc
  have hc2 : c < 2 := by omega
  interval_cases c
  · exact ⟨single_example 0 [2000, 1000] 1 1000 1000,
      { freq_array := [2000, 1000], cur_index := 1 }, rfl, rfl, rfl, rfl⟩
  · exact ⟨single_example 1 [2000, 1000] 1 1000 1000,
      { freq_array := [2000, 1000], cur_index := 1 }, rfl, rfl, rfl, rfl⟩

theorem stepwise_full_ladder_witness :
    (∀ n, ∃ s, under_rate_run hrm_example n (controller_example (controls_two_cores 1 1 1)) s) ∧
    (∀ n s s2, under_rate_run hrm_example n (controller_example (controls_two_cores 1 1 1)) s →
      under_rate_tick hrm_example s s2 →
      core_value statics_two_cores s.controls ≤ core_value statics_two_cores s2.controls ∧
      core_value statics_two_cores s2.controls ≤ core_value statics_two_cores s.controls + 1 ∧
      (core_value statics_two_cores s2.controls = core_value statics_two_cores s.controls + 1 →
        core_at_floor statics_two_cores s2.controls
          (core_value statics_two_cores s.controls))) ∧
    (∃ N, ∀ n, N ≤ n → ∀ s,
      under_rate_run hrm_example n (controller_example (controls_two_cores 1 1 1)) s →
      ∃ ca, core_count_act statics_two_cores s.controls = some ca ∧ ca.value = ca.max ∧
        ∀ c, c < ca.max → core_at_ceiling statics_two_cores s.controls c) :=
  (fun T =>
    ⟨T.1,
      fun n s s2 hrun htick =>
        ⟨(T.2.1 n s s2 hrun htick).1, (T.2.1 n s s2 hrun htick).2.1,
          fun hgrow => (T.2.1 n s s2 hrun htick).2.2 hgrow (descending_two_cores 1 1 1)⟩,
      T.2.2 (descending_two_cores 1 1 1) (settled_two_cores 1 (by decide))
        (fun c hc => absurd hc (by
          have h : core_value statics_two_cores (controls_two_cores 1 1 1) = 1 := rfl
          show ¬ c + 1 < core_value statics_two_cores (controls_two_cores 1 1 1)
          rw [h]
          omega))⟩)
  (stepwise_full_ladder hrm_example statics_two_cores
    (controller_example (controls_two_cores 1 1 1))
    (bind_two_cores 1 1 1)
    (ready_two_cores 1 1 1 (by decide) (by decide) (by decide)))

/-- C6 as stated fails, for two reasons.  First: two cores on the descending
ladder 2000, 1000, both active (`value = max = 2`), both running at 1000
(index 1): the state is initialised, yet no run of acknowledged under-rate
iterations, however long, reaches a state in which every active core runs at
its ceiling, because core 0 is never the last active core and keeps its cursor
at 1.  Second: on the ascending ladder 1000, 2000 with one core active at
1000, one acknowledged under-rate iteration adds core 1 at index 1, where it
runs at 2000, the highest frequency of its ladder and not the floor. -/
theorem stepwise_full_ladder_counterexample :
    (step_bind statics.initial (controls_two_cores 1 1 2) = some statics_two_cores ∧
      stepwise_ready statics_two_cores (controls_two_cores 1 1 2) ∧
      ladders_descending statics_two_cores (controls_two_cores 1 1 2) ∧
      active_cores_settled statics_two_cores (controls_two_cores 1 1 2) ∧
      ¬ ∃ n s, under_rate_run hrm_example n (controller_example (controls_two_cores 1 1 2)) s ∧
        ∀ c, c < core_value statics_two_cores s.controls →
          core_at_ceiling statics_two_cores s.controls c) ∧
    (ascending [1000, 2000] ∧ (5 : ℚ) < hrm_example.min_rate ∧
      (main_loop_body hrm_example step_heuristics
          (hw_acknowledging
            [single_example 0 [1000, 2000] 0 1000 1000,
              single_example 1 [1000, 2000] 1 1000 2000,
              global_example [1000, 2000] 0 1000 1000,
              requesting (count_example 1 2 1) 2])
          (controller_example (controls_two_cores_ascending 0 0 1)) ⟨0, 5⟩).map
        (fun r => r.next.controls)
        = some [single_example 0 [1000, 2000] 0 1000 1000,
            single_example 1 [1000, 2000] 1 2000 2000,
            global_example [1000, 2000] 0 1000 1000,
            count_example 1 2 2] ∧
      ¬ ladder_at_floor { freq_array := [1000, 2000], cur_index := 1 }) := by
  have hready := ready_two_cores 1 1 2 (by decide) (by decide) (by decide)
  have hdesc := descending_two_cores 1 1 2
  have hset := settled_two_cores 2 (by decide)
  refine ⟨⟨bind_two_cores 1 1 2, hready, hdesc, hset, ?_⟩, by decide⟩
  rintro ⟨n, s, hrun, hall⟩
  obtain ⟨-, hr, -, hmono, hkeep, -, hd, -⟩ := run_invariant hrm_example statics_two_cores
    (controller_example (controls_two_cores 1 1 2)) (bind_two_cores 1 1 2) hready n s hrun
  have hv : core_value statics_two_cores (controller_example (controls_two_cores 1 1 2)).controls
      = 2 := rfl
  have hc : cursor statics_two_cores (controller_example (controls_two_cores 1 1 2)).controls 0
      = 1 := rfl
  rw [hv] at hmono hkeep
  have h0 := hkeep 0 (by omega)
  rw [hc] at h0
  obtain ⟨a, d, hfa, ⟨hdata, -, -⟩, hceil⟩ := hall 0 (by omega)
  have hl := ladder_freq_act statics_two_cores s.controls 0 a hfa
  rw [hdata] at hl
  obtain ⟨ci, ca, hci, hca, -, hle, -⟩ := hr
  have hcc := core_count_act_eq statics_two_cores s.controls ci ca hci hca
  have hval := core_value_eq statics_two_cores s.controls ca hcc
  have hzero := ceiling_cursor d (hd hdesc ca hcc 0 d (by omega) hl) hceil
  rw [cursor_eq statics_two_cores s.controls 0 d hl, hzero] at h0
  exact absurd h0 (by decide)

end Heartbeats
